import Mathlib

/-!
# Verification of `krb5format.py`

A shallow embedding of the krb5format module (MIT Kerberos V5 keytab and
credential-cache binary formats).  Byte streams are modelled as `List Nat`
(one `Nat` per byte); the Python file object is modelled by explicit state
passing: `f.read(n)` returns up to `n` bytes and the remainder of the
stream.  Python exceptions are modelled with `Except PyErr`.

The module is written for Python 2 (its docstring example uses the
Python 2 print statement); builtin `filter` is therefore modelled as
returning a list.
-/

namespace Krb5Format

/-- A byte stream: one `Nat` per byte (each `< 256` in well-formed data). -/
abbrev ByteStream := List Nat

/-- The Python exceptions the module can raise while decoding/encoding. -/
inductive PyErr where
  | structError
  | eofError
  | valueError
  | keyError
deriving DecidableEq, Repr

/-- Python `f.read n`: return up to `n` bytes (fewer at end of stream,
with no error) together with the rest of the stream. -/
def fread (n : Nat) (s : ByteStream) : ByteStream × ByteStream :=
  (s.take n, s.drop n)

/-- Big-endian value of a byte list. -/
def beVal (b : ByteStream) : Nat :=
  b.foldl (fun a c => a * 256 + c) 0

/-- `struct.Struct('!B').unpack`: exactly 1 byte or `struct.error`. -/
def unpackU8 (b : ByteStream) : Except PyErr Nat :=
  if b.length = 1 then .ok (beVal b) else .error .structError

/-- `struct.Struct('!H').unpack`: exactly 2 bytes or `struct.error`. -/
def unpackU16 (b : ByteStream) : Except PyErr Nat :=
  if b.length = 2 then .ok (beVal b) else .error .structError

/-- `struct.Struct('!I').unpack`: exactly 4 bytes or `struct.error`. -/
def unpackU32 (b : ByteStream) : Except PyErr Nat :=
  if b.length = 4 then .ok (beVal b) else .error .structError

/-- `struct.Struct('!i').unpack`: exactly 4 bytes, two's complement. -/
def unpackI32 (b : ByteStream) : Except PyErr Int :=
  if b.length = 4 then
    .ok (if 2 ^ 31 ≤ beVal b then (beVal b : Int) - 2 ^ 32 else (beVal b : Int))
  else .error .structError

/-- The bytes of an unsigned 16-bit big-endian field. -/
def u16be (n : Nat) : ByteStream := [n / 256 % 256, n % 256]

/-- The bytes of an unsigned 32-bit big-endian field. -/
def u32be (n : Nat) : ByteStream :=
  [n / 2 ^ 24 % 256, n / 2 ^ 16 % 256, n / 256 % 256, n % 256]

/-- The bytes of a signed 32-bit big-endian field (two's complement). -/
def i32be (z : Int) : ByteStream := u32be (z.emod (2 ^ 32)).toNat

/-- `char.pack`: range-checked like `struct.Struct('!B').pack`. -/
def packChar (n : Nat) : Except PyErr ByteStream :=
  if n < 2 ^ 8 then .ok [n] else .error .structError

/-- `uint16.pack`: range-checked like `struct.Struct('!H').pack`. -/
def packU16 (n : Nat) : Except PyErr ByteStream :=
  if n < 2 ^ 16 then .ok (u16be n) else .error .structError

/-- `uint32.pack`: range-checked like `struct.Struct('!I').pack`. -/
def packU32 (n : Nat) : Except PyErr ByteStream :=
  if n < 2 ^ 32 then .ok (u32be n) else .error .structError

/-- `int32.pack`: range-checked like `struct.Struct('!i').pack`. -/
def packI32 (z : Int) : Except PyErr ByteStream :=
  if -2 ^ 31 ≤ z ∧ z ≤ 2 ^ 31 - 1 then .ok (i32be z) else .error .structError

/-- Width of `self.array`: `uint32` when the file version is 0x0504,
`uint16` otherwise (`Krb5File.__init__` / `Krb5File.load`). -/
def arraySize (v : Nat) : Nat := if v = 0x0504 then 4 else 2

/-- `self.array.unpack`, the version-selected array-length decoder. -/
def unpackArr (v : Nat) (b : ByteStream) : Except PyErr Nat :=
  if b.length = arraySize v then .ok (beVal b) else .error .structError

/-- `self.array.pack`, the version-selected array-length encoder. -/
def packArr (v : Nat) (n : Nat) : Except PyErr ByteStream :=
  if v = 0x0504 then packU32 n else packU16 n

/-- Bytes of a version-width array-length field. -/
def arrBe (v : Nat) (n : Nat) : ByteStream :=
  if v = 0x0504 then u32be n else u16be n

/-- Python `"sep".join(parts)` over byte strings. -/
def pyJoin (sep : Nat) : List ByteStream → ByteStream
  | [] => []
  | [c] => c
  | c :: c2 :: cs => c ++ sep :: pyJoin sep (c2 :: cs)

/-- Python `s.split(sep)` for a one-byte separator: always returns at
least one part; `n` separators give `n + 1` parts. -/
def pySplit (sep : Nat) : ByteStream → List ByteStream
  | [] => [[]]
  | c :: rest =>
    match pySplit sep rest with
    | [] => []
    | p :: ps => if c = sep then [] :: p :: ps else (c :: p) :: ps

/-- A decoded principal: the `princ` dict of `Krb5File._read_principal`.
`name_type` is `none` when the dict has no `"name_type"` key. -/
structure Principal where
  name_type : Option Nat
  value : ByteStream
deriving DecidableEq, Repr

/-- A decoded key block: the `key` dict of `Krb5File._read_keyblock`.
`etype` is `none` when the dict has no `"etype"` key. -/
structure KeyBlock where
  type : Nat
  etype : Option ByteStream
  val : ByteStream
deriving DecidableEq, Repr

/-- `Krb5File._read_array`: version-width length field, then that many
bytes.  Note the payload read is Python `f.read(length)`, which returns
short data at end of stream without raising. -/
def readArray (v : Nat) (s : ByteStream) : Except PyErr (ByteStream × ByteStream) :=
  match unpackArr v (fread (arraySize v) s).1 with
  | .error e => .error e
  | .ok len =>
    let s1 := (fread (arraySize v) s).2
    .ok (fread len s1)

/-- The component-reading loop of `Krb5File._read_principal`. -/
def readComponents (v : Nat) : Nat → ByteStream → Except PyErr (List ByteStream × ByteStream)
  | 0, s => .ok ([], s)
  | n + 1, s =>
    match readArray v s with
    | .error e => .error e
    | .ok (c, s1) =>
      match readComponents v n s1 with
      | .error e => .error e
      | .ok (cs, s2) => .ok (c :: cs, s2)

/-- The reads inside the `try` block of `Krb5File._read_principal`:
for 0x0504 a u32 `name_type`, then (for every version) the
version-width component count. -/
def readPrincipalHead (v : Nat) (s : ByteStream) :
    Except PyErr ((Option Nat × Nat) × ByteStream) :=
  if v = 0x0504 then
    match unpackU32 (fread 4 s).1 with
    | .error e => .error e
    | .ok nt =>
      let s1 := (fread 4 s).2
      match unpackArr v (fread (arraySize v) s1).1 with
      | .error e => .error e
      | .ok nc => .ok ((some nt, nc), (fread (arraySize v) s1).2)
  else
    match unpackArr v (fread (arraySize v) s).1 with
    | .error e => .error e
    | .ok nc => .ok ((none, nc), (fread (arraySize v) s).2)

/-- `Krb5File._read_principal`.  The `try`/`except struct.error` around
the head reads re-raises as `EOFError`.  Only version 0x0502 reads a
u32 `name_type` after the components; 0x0504 read it before the count;
other versions never set it. -/
def readPrincipal (v : Nat) (s : ByteStream) : Except PyErr (Principal × ByteStream) :=
  match readPrincipalHead v s with
  | .error .structError => .error .eofError
  | .error e => .error e
  | .ok ((nt0, nc), s2) =>
    match readArray v s2 with
    | .error e => .error e
    | .ok (realm, s3) =>
      match readComponents v nc s3 with
      | .error e => .error e
      | .ok (components, s4) =>
        if v = 0x0502 then
          match unpackU32 (fread 4 s4).1 with
          | .error e => .error e
          | .ok nt =>
            .ok ({ name_type := some nt,
                   value := pyJoin 47 components ++ 64 :: realm }, (fread 4 s4).2)
        else
          .ok ({ name_type := nt0,
                 value := pyJoin 47 components ++ 64 :: realm }, s4)

/-- `Krb5File._read_time`: a big-endian u32. -/
def readTime (s : ByteStream) : Except PyErr (Nat × ByteStream) :=
  match unpackU32 (fread 4 s).1 with
  | .error e => .error e
  | .ok t => .ok (t, (fread 4 s).2)

/-- `Krb5File._read_keyblock`: u16 type; for versions above 0x0502 two
raw bytes of `etype` (plain `f.read(2)`, unchecked); u16 key length;
that many key bytes (again unchecked `f.read`). -/
def readKeyblock (v : Nat) (s : ByteStream) : Except PyErr (KeyBlock × ByteStream) :=
  match unpackU16 (fread 2 s).1 with
  | .error e => .error e
  | .ok t =>
    let s1 := (fread 2 s).2
    let es2 : Option ByteStream × ByteStream :=
      if 0x0502 < v then (some (fread 2 s1).1, (fread 2 s1).2) else (none, s1)
    match unpackU16 (fread 2 es2.2).1 with
    | .error e => .error e
    | .ok keylen =>
      let s3 := (fread 2 es2.2).2
      .ok ({ type := t, etype := es2.1, val := (fread keylen s3).1 }, (fread keylen s3).2)

/-- A decoded keytab entry: the `entry` dict of `Keytab._load_entry`.
`vno` is `none` when no trailing key version was read. -/
structure KeytabEntry where
  principal : Principal
  timestamp : Nat
  vno8 : Nat
  key : KeyBlock
  vno : Option Nat
deriving DecidableEq, Repr

/-- `Keytab._read_vno8`: one byte. -/
def readVno8 (s : ByteStream) : Except PyErr (Nat × ByteStream) :=
  match unpackU8 (fread 1 s).1 with
  | .error e => .error e
  | .ok n => .ok (n, (fread 1 s).2)

/-- `Keytab._read_vno`: `remaining = size - (finish - start)` (the
`f.tell()` difference is the number of bytes consumed since the size
field); a trailing u32 key version is read when at least 4 bytes of the
declared size remain, and any further declared bytes are read and
discarded. -/
def readVno (size consumed : Int) (s : ByteStream) : Except PyErr (Option Nat × ByteStream) :=
  let remaining := size - consumed
  if 4 ≤ remaining then
    match unpackU32 (fread 4 s).1 with
    | .error e => .error e
    | .ok vno =>
      let s1 := (fread 4 s).2
      if 0 < remaining - 4 then .ok (some vno, (fread (remaining - 4).toNat s1).2)
      else .ok (some vno, s1)
  else if 0 < remaining then .ok (none, (fread remaining.toNat s).2)
  else .ok (none, s)

/-- `Keytab.__get_entry_size`: 4 bytes as a signed big-endian i32;
fewer than 4 bytes available raises `EOFError`. -/
def getEntrySize (s : ByteStream) : Except PyErr (Int × ByteStream) :=
  let data := (fread 4 s).1
  if data.length < 4 then .error .eofError
  else
    match unpackI32 data with
    | .error e => .error e
    | .ok size => .ok (size, (fread 4 s).2)

theorem getEntrySize_ok {s : ByteStream} {size : Int} {s1 : ByteStream}
    (h : getEntrySize s = .ok (size, s1)) : s1 = s.drop 4 ∧ 4 ≤ s.length := by
  unfold getEntrySize at h
  simp only [fread] at h
  split at h
  · exact absurd h (by simp)
  · rename_i hl
    rw [List.length_take] at hl
    split at h
    · exact absurd h (by simp)
    · simp only [Except.ok.injEq, Prod.mk.injEq] at h
      exact ⟨h.2.symm, by omega⟩

/-- The `while size < 0` hole-skipping loop at the top of
`Keytab._load_entry`: read a size; while it is negative, skip that many
bytes and read the next size.  (The leading length guard mirrors the
`EOFError` branch of `Keytab.__get_entry_size` and justifies
termination: every loop iteration consumes the 4 size bytes.) -/
def getSizeSkippingHoles (s : ByteStream) : Except PyErr (Int × ByteStream) :=
  if s.length < 4 then .error .eofError
  else
    match hge : getEntrySize s with
    | .error e => .error e
    | .ok (size, s1) =>
      if size < 0 then getSizeSkippingHoles (fread (-size).toNat s1).2
      else .ok (size, s1)
termination_by s.length
decreasing_by
  have h := getEntrySize_ok hge
  simp only [fread, List.length_drop, h.1]
  omega

/-- `Keytab._load_entry`: skip holes, then decode principal, timestamp,
key-version byte, key block and the trailing key version.  `f.tell()`
positions are modelled by stream lengths: the bytes consumed since the
size field are `s1.length - s5.length`. -/
def loadEntry (v : Nat) (s : ByteStream) : Except PyErr (KeytabEntry × ByteStream) :=
  match getSizeSkippingHoles s with
  | .error e => .error e
  | .ok (size, s1) =>
    match readPrincipal v s1 with
    | .error e => .error e
    | .ok (principal, s2) =>
      match readTime s2 with
      | .error e => .error e
      | .ok (timestamp, s3) =>
        match readVno8 s3 with
        | .error e => .error e
        | .ok (vno8, s4) =>
          match readKeyblock v s4 with
          | .error e => .error e
          | .ok (key, s5) =>
            match readVno size ((s1.length : Int) - (s5.length : Int)) s5 with
            | .error e => .error e
            | .ok (vno, s6) =>
              .ok ({ principal := principal, timestamp := timestamp,
                     vno8 := vno8, key := key, vno := vno }, s6)

theorem readArray_mono {v : Nat} {s : ByteStream} {a s' : ByteStream}
    (h : readArray v s = .ok (a, s')) : s'.length ≤ s.length := by
  unfold readArray at h
  simp only [fread] at h
  repeat' split at h
  all_goals first
    | exact Except.noConfusion h
    | (injection h with h1
       injection h1 with h2 h3
       subst h3
       try simp only [List.length_drop]
       try simp
       try omega)

theorem readComponents_mono {v : Nat} : ∀ {n : Nat} {s : ByteStream} {cs : List ByteStream}
    {s' : ByteStream}, readComponents v n s = .ok (cs, s') → s'.length ≤ s.length := by
  intro n
  induction n with
  | zero =>
    intro s cs s' h
    unfold readComponents at h
    simp only [Except.ok.injEq, Prod.mk.injEq] at h
    rw [← h.2]
  | succ n ih =>
    intro s cs s' h
    unfold readComponents at h
    rcases ha : readArray v s with e | ⟨c, s1⟩
    · rw [ha] at h
      simp at h
    · rw [ha] at h
      simp only [] at h
      rcases hc : readComponents v n s1 with e | ⟨cs1, s2⟩
      · rw [hc] at h
        simp at h
      · rw [hc] at h
        simp only [Except.ok.injEq, Prod.mk.injEq] at h
        rw [← h.2]
        exact le_trans (ih hc) (readArray_mono ha)

theorem readPrincipalHead_mono {v : Nat} {s : ByteStream} {r : Option Nat × Nat}
    {s' : ByteStream} (h : readPrincipalHead v s = .ok (r, s')) : s'.length ≤ s.length := by
  unfold readPrincipalHead at h
  simp only [fread] at h
  repeat' split at h
  all_goals first
    | exact Except.noConfusion h
    | (injection h with h1
       injection h1 with h2 h3
       subst h3
       try simp only [List.length_drop]
       try simp
       try omega)

theorem readPrincipal_mono {v : Nat} {s : ByteStream} {p : Principal}
    {s' : ByteStream} (h : readPrincipal v s = .ok (p, s')) : s'.length ≤ s.length := by
  unfold readPrincipal at h
  rcases hh : readPrincipalHead v s with e | ⟨⟨nt0, nc⟩, s2⟩
  · rw [hh] at h
    rcases e <;> simp at h
  · rw [hh] at h
    simp only [] at h
    rcases ha : readArray v s2 with e | ⟨realm, s3⟩
    · rw [ha] at h
      simp at h
    · rw [ha] at h
      simp only [] at h
      rcases hc : readComponents v nc s3 with e | ⟨comps, s4⟩
      · rw [hc] at h
        simp at h
      · rw [hc] at h
        simp only [] at h
        have m1 := readPrincipalHead_mono hh
        have m2 := readArray_mono ha
        have m3 := readComponents_mono hc
        by_cases hv : v = 0x0502
        · rw [if_pos hv] at h
          rcases hu : unpackU32 (fread 4 s4).1 with e | nt
          · rw [hu] at h
            simp at h
          · rw [hu] at h
            simp only [fread, Except.ok.injEq, Prod.mk.injEq] at h
            rw [← h.2]
            simp only [List.length_drop]
            omega
        · rw [if_neg hv] at h
          simp only [Except.ok.injEq, Prod.mk.injEq] at h
          rw [← h.2]
          omega

theorem readTime_mono {s : ByteStream} {t : Nat} {s' : ByteStream}
    (h : readTime s = .ok (t, s')) : s'.length ≤ s.length := by
  unfold readTime at h
  simp only [fread] at h
  repeat' split at h
  all_goals first
    | exact Except.noConfusion h
    | (injection h with h1
       injection h1 with h2 h3
       subst h3
       try simp only [List.length_drop]
       try simp
       try omega)

theorem readVno8_mono {s : ByteStream} {n : Nat} {s' : ByteStream}
    (h : readVno8 s = .ok (n, s')) : s'.length ≤ s.length := by
  unfold readVno8 at h
  simp only [fread] at h
  repeat' split at h
  all_goals first
    | exact Except.noConfusion h
    | (injection h with h1
       injection h1 with h2 h3
       subst h3
       try simp only [List.length_drop]
       try simp
       try omega)

theorem readKeyblock_mono {v : Nat} {s : ByteStream} {k : KeyBlock} {s' : ByteStream}
    (h : readKeyblock v s = .ok (k, s')) : s'.length ≤ s.length := by
  unfold readKeyblock at h
  simp only [fread] at h
  repeat' split at h
  all_goals first
    | exact Except.noConfusion h
    | (injection h with h1
       injection h1 with h2 h3
       subst h3
       try simp only [List.length_drop]
       try simp
       try omega)

theorem readVno_mono {size consumed : Int} {s : ByteStream} {r : Option Nat} {s' : ByteStream}
    (h : readVno size consumed s = .ok (r, s')) : s'.length ≤ s.length := by
  unfold readVno at h
  simp only [fread] at h
  repeat' split at h
  all_goals first
    | exact Except.noConfusion h
    | (injection h with h1
       injection h1 with h2 h3
       subst h3
       try simp only [List.length_drop]
       try simp
       try omega)

theorem getSizeSkippingHoles_consumes_aux (n : Nat) : ∀ (s : ByteStream), s.length ≤ n →
    ∀ {size : Int} {s1 : ByteStream}, getSizeSkippingHoles s = .ok (size, s1) →
    s1.length + 4 ≤ s.length ∧ 0 ≤ size := by
  induction n with
  | zero =>
    intro s hs size s1 h
    unfold getSizeSkippingHoles at h
    rw [if_pos (by omega)] at h
    exact absurd h (by simp)
  | succ n ih =>
    intro s hs size s1 h
    unfold getSizeSkippingHoles at h
    split at h
    · exact absurd h (by simp)
    · rename_i hlen
      split at h
      · exact absurd h (by simp)
      · rename_i size' s1' hge
        obtain ⟨hdrop, hl4⟩ := getEntrySize_ok hge
        split at h
        · rename_i hneg
          have hlen2 : ((fread (-size').toNat s1').2).length ≤ n := by
            simp only [fread, List.length_drop, hdrop]
            omega
          have := ih _ hlen2 h
          refine ⟨?_, this.2⟩
          have : s1.length + 4 ≤ ((fread (-size').toNat s1').2).length := this.1
          simp only [fread, List.length_drop, hdrop] at this
          omega
        · rename_i hneg
          simp only [Except.ok.injEq, Prod.mk.injEq] at h
          obtain ⟨h1, h2⟩ := h
          subst h1
          rw [← h2, hdrop]
          simp only [List.length_drop]
          exact ⟨by omega, by omega⟩

theorem getSizeSkippingHoles_consumes {s : ByteStream} {size : Int} {s1 : ByteStream}
    (h : getSizeSkippingHoles s = .ok (size, s1)) :
    s1.length + 4 ≤ s.length ∧ 0 ≤ size :=
  getSizeSkippingHoles_consumes_aux s.length s (le_refl _) h

theorem loadEntry_consumes {v : Nat} {s : ByteStream} {e : KeytabEntry} {s' : ByteStream}
    (h : loadEntry v s = .ok (e, s')) : s'.length < s.length := by
  unfold loadEntry at h
  rcases hsz : getSizeSkippingHoles s with er | ⟨size, s1⟩
  · rw [hsz] at h
    simp at h
  rw [hsz] at h
  simp only [] at h
  rcases hp : readPrincipal v s1 with er | ⟨p, s2⟩
  · rw [hp] at h
    simp at h
  rw [hp] at h
  simp only [] at h
  rcases ht : readTime s2 with er | ⟨t, s3⟩
  · rw [ht] at h
    simp at h
  rw [ht] at h
  simp only [] at h
  rcases h8 : readVno8 s3 with er | ⟨n8, s4⟩
  · rw [h8] at h
    simp at h
  rw [h8] at h
  simp only [] at h
  rcases hk : readKeyblock v s4 with er | ⟨k, s5⟩
  · rw [hk] at h
    simp at h
  rw [hk] at h
  simp only [] at h
  rcases hv : readVno size ((s1.length : Int) - (s5.length : Int)) s5 with er | ⟨vn, s6⟩
  · rw [hv] at h
    simp at h
  rw [hv] at h
  simp only [Except.ok.injEq, Prod.mk.injEq] at h
  rw [← h.2]
  have c1 := getSizeSkippingHoles_consumes hsz
  have c2 := readPrincipal_mono hp
  have c3 := readTime_mono ht
  have c4 := readVno8_mono h8
  have c5 := readKeyblock_mono hk
  have c6 := readVno_mono hv
  omega

/-- The entry loop of `Krb5File.load`: append entries until `EOFError`
breaks the loop; any other exception propagates. -/
def loadEntries (v : Nat) (s : ByteStream) : Except PyErr (List KeytabEntry) :=
  match hle : loadEntry v s with
  | .error .eofError => .ok []
  | .error .structError => .error .structError
  | .error .valueError => .error .valueError
  | .error .keyError => .error .keyError
  | .ok (e, s1) =>
    match loadEntries v s1 with
    | .error e2 => .error e2
    | .ok rest => .ok (e :: rest)
termination_by s.length
decreasing_by
  exact loadEntry_consumes hle

/-- `Krb5File.load` for a `Keytab`: read the 2-byte version (which
selects the array-length width), then entries until end of stream.
The result pairs the detected version with the decoded entries. -/
def keytabLoad (s : ByteStream) : Except PyErr (Nat × List KeytabEntry) :=
  match unpackU16 (fread 2 s).1 with
  | .error e => .error e
  | .ok v =>
    match loadEntries v (fread 2 s).2 with
    | .error e => .error e
    | .ok entries => .ok (v, entries)

/-- `Krb5File._make_array`: version-width length field, then the bytes. -/
def makeArray (v : Nat) (arr : ByteStream) : Except PyErr ByteStream :=
  match packArr v arr.length with
  | .error e => .error e
  | .ok lb => .ok (lb ++ arr)

/-- The key-block portion of `Keytab.__write_entry` (its two key lines):
u16 key type, then `_make_array` of the key material.  No `etype` field
is ever written. -/
def writeKeyblock (v : Nat) (key : KeyBlock) : Except PyErr ByteStream :=
  match packU16 key.type with
  | .error e => .error e
  | .ok t =>
    match makeArray v key.val with
    | .error e => .error e
    | .ok kv => .ok (t ++ kv)

/-- The component-writing loop of `Keytab.__write_entry`. -/
def writeComponents (v : Nat) : List ByteStream → Except PyErr ByteStream
  | [] => .ok []
  | c :: cs =>
    match makeArray v c with
    | .error e => .error e
    | .ok a =>
      match writeComponents v cs with
      | .error e => .error e
      | .ok rest => .ok (a ++ rest)

/-- Python truthiness of the `entry["vno"]` value: `None` and `0` are
both falsy, so `if entry["vno"]:` skips them. -/
def pyTruthy : Option Nat → Bool
  | none => false
  | some n => decide (n ≠ 0)

/-- The principal-encoding lines of `Keytab.__write_entry`: split the
principal value at `'@'` (exactly two parts or `ValueError`), split the
first part at `'/'`; then: u16 component count, realm array, component
arrays, u32 name_type (`KeyError` when the decoded dict has none). -/
def writePrincipalData (v : Nat) (principal : Principal) : Except PyErr ByteStream :=
  match pySplit 64 principal.value with
  | [princ, realm] =>
    let components := pySplit 47 princ
    match packU16 components.length with
    | .error e => .error e
    | .ok cnt =>
      match makeArray v realm with
      | .error e => .error e
      | .ok realmA =>
        match writeComponents v components with
        | .error e => .error e
        | .ok compsA =>
          match principal.name_type with
          | none => .error .keyError
          | some n =>
            match packU32 n with
            | .error e => .error e
            | .ok nt => .ok (cnt ++ realmA ++ compsA ++ nt)
  | _ => .error .valueError

/-- The body of `Keytab.__write_entry`: principal bytes, u32 timestamp,
u8 vno8, key block, optional u32 vno (skipped when `None` or `0`). -/
def writeEntryBody (v : Nat) (entry : KeytabEntry) : Except PyErr ByteStream :=
  match writePrincipalData v entry.principal with
  | .error e => .error e
  | .ok pr =>
    match packU32 entry.timestamp with
    | .error e => .error e
    | .ok ts =>
      match packChar entry.vno8 with
      | .error e => .error e
      | .ok v8 =>
        match writeKeyblock v entry.key with
        | .error e => .error e
        | .ok kb =>
          match (if pyTruthy entry.vno then packU32 (entry.vno.getD 0)
                 else .ok []) with
          | .error e => .error e
          | .ok tl => .ok (pr ++ ts ++ v8 ++ kb ++ tl)

/-- `Keytab.__write_entry`: the body bytes prefixed with the signed
4-byte body length. -/
def writeEntry (v : Nat) (entry : KeytabEntry) : Except PyErr ByteStream :=
  match writeEntryBody v entry with
  | .error e => .error e
  | .ok data =>
    match packI32 (data.length : Int) with
    | .error e => .error e
    | .ok szb => .ok (szb ++ data)

/-- The upper bound enforced by the version-selected array-length width. -/
def arrBound (v : Nat) : Nat := if v = 0x0504 then 2 ^ 32 else 2 ^ 16

/-- The byte encoding of a component list: each component as a
version-width length-prefixed array, concatenated. -/
def compsEnc (v : Nat) : List ByteStream → ByteStream
  | [] => []
  | c :: cs => arrBe v c.length ++ c ++ compsEnc v cs

/-- `Keytab.filter` under Python 2 semantics (builtin `filter` returns
a list; `in`/`remove` compare dicts by value): collect the matching
entries, collect every entry not among them, and remove each of those
(first occurrence) from the container.  The regex test
`princs.match(k["principal"]["value"])` is modelled by an arbitrary
boolean predicate on entries. -/
def keytabFilter (p : KeytabEntry → Bool) (l : List KeytabEntry) : List KeytabEntry :=
  let keys := l.filter p
  let other_keys := l.filter (fun k => !(keys.contains k))
  other_keys.foldl (fun acc k => acc.erase k) l

/-- The `times` dict of `CredentialCache._read_times`. -/
structure CredTimes where
  authtime : Nat
  starttime : Nat
  endtime : Nat
  renew_till : Nat
deriving DecidableEq, Repr

/-- The `cred` dict of `CredentialCache._load_entry`. -/
structure CredEntry where
  client : Principal
  server : Principal
  key : KeyBlock
  times : CredTimes
  is_skey : Nat
  tktflags : Nat
  addrs : List ByteStream
  authdata : List ByteStream
  ticket : ByteStream
  ticket2 : ByteStream
deriving DecidableEq, Repr

/-- Python `server.split('/')[0]`: the bytes before the first `'/'`. -/
def primaryComponent (s : ByteStream) : ByteStream :=
  s.takeWhile (fun c => decide (c ≠ 47))

/-- The bytes of the well-known service name `"krbtgt"`. -/
def krbtgt : ByteStream := [107, 114, 98, 116, 103, 116]

/-- `CredentialCache.is_tgt_expired`: scan for the first entry whose
server principal's primary component is `"krbtgt"`; return whether its
endtime is at most `now + secs`; fall off the loop (`None`) when no
such entry exists.  The ambient clock read
(`calendar.timegm(...) + time.timezone`) is modelled by the explicit
parameter `now`. -/
def isTgtExpired (entries : List CredEntry) (now : Int) (secs : Int) : Option Bool :=
  match entries with
  | [] => none
  | e :: rest =>
    if primaryComponent e.server.value = krbtgt then
      if (e.times.endtime : Int) ≤ now + secs then some true else some false
    else isTgtExpired rest now secs

/-- The relation "starting from stream `s`, successive applications of
`Keytab._load_entry` decode the entries `es` and leave remainder `r`". -/
inductive DecodeChain (v : Nat) : ByteStream → List KeytabEntry → ByteStream → Prop
  | nil (s : ByteStream) : DecodeChain v s [] s
  | cons {s : ByteStream} {e : KeytabEntry} {s1 : ByteStream} {es : List KeytabEntry}
      {r : ByteStream} : loadEntry v s = .ok (e, s1) → DecodeChain v s1 es r →
      DecodeChain v s (e :: es) r

theorem getSizeSkippingHoles_eof {s : ByteStream} (h : s.length < 4) :
    getSizeSkippingHoles s = .error .eofError := by
  unfold getSizeSkippingHoles
  rw [if_pos h]

theorem getSizeSkippingHoles_stop {s : ByteStream} {sz : Int} {s1 : ByteStream}
    (h : getEntrySize s = .ok (sz, s1)) (hnn : 0 ≤ sz) :
    getSizeSkippingHoles s = .ok (sz, s1) := by
  have hl := (getEntrySize_ok h).2
  unfold getSizeSkippingHoles
  rw [if_neg (by omega)]
  split
  · rename_i heq
    rw [h] at heq
    exact Except.noConfusion heq
  · rename_i size s1' heq
    rw [h] at heq
    injection heq with heq1
    injection heq1 with h1 h2
    subst h1
    subst h2
    rw [if_neg (by omega)]

theorem getSizeSkippingHoles_hole {s : ByteStream} {sz : Int} {s1 : ByteStream}
    (h : getEntrySize s = .ok (sz, s1)) (hneg : sz < 0) :
    getSizeSkippingHoles s = getSizeSkippingHoles (s1.drop (-sz).toNat) := by
  have hl := (getEntrySize_ok h).2
  conv_lhs => unfold getSizeSkippingHoles
  rw [if_neg (by omega)]
  split
  · rename_i heq
    rw [h] at heq
    exact Except.noConfusion heq
  · rename_i size s1' heq
    rw [h] at heq
    injection heq with heq1
    injection heq1 with h1 h2
    subst h1
    subst h2
    rw [if_pos hneg]
    rfl

theorem loadEntries_nil {v : Nat} {s : ByteStream}
    (h : loadEntry v s = .error .eofError) : loadEntries v s = .ok [] := by
  unfold loadEntries
  split
  · rfl
  all_goals rename_i heq
  all_goals rw [h] at heq
  any_goals exact Except.noConfusion heq
  all_goals exact PyErr.noConfusion (Except.error.inj heq)

theorem loadEntries_cons {v : Nat} {s : ByteStream} {e : KeytabEntry} {s1 : ByteStream}
    {rest : List KeytabEntry} (h : loadEntry v s = .ok (e, s1))
    (h2 : loadEntries v s1 = .ok rest) : loadEntries v s = .ok (e :: rest) := by
  unfold loadEntries
  split
  any_goals (rename_i heq; rw [h] at heq; exact Except.noConfusion heq)
  rename_i e1 s11 heq
  rw [h] at heq
  injection heq with heq1
  injection heq1 with he hs
  subst he
  subst hs
  rw [h2]

theorem loadEntries_structError {v : Nat} {s : ByteStream}
    (h : loadEntry v s = .error .structError) : loadEntries v s = .error .structError := by
  unfold loadEntries
  split
  all_goals rename_i heq
  all_goals rw [h] at heq
  all_goals simp at heq

theorem fread_exact {a b : ByteStream} {n : Nat} (h : a.length = n) :
    fread n (a ++ b) = (a, b) := by
  subst h
  simp [fread]

theorem beVal_u16be {n : Nat} (h : n < 2 ^ 16) : beVal (u16be n) = n := by
  simp [beVal, u16be, List.foldl]
  omega

theorem beVal_u32be {n : Nat} (h : n < 2 ^ 32) : beVal (u32be n) = n := by
  simp [beVal, u32be, List.foldl]
  omega

theorem length_u16be (n : Nat) : (u16be n).length = 2 := rfl

theorem length_u32be (n : Nat) : (u32be n).length = 4 := rfl

theorem length_arrBe (v n : Nat) : (arrBe v n).length = arraySize v := by
  unfold arrBe arraySize
  split <;> rfl

theorem beVal_arrBe {v n : Nat} (h : n < arrBound v) : beVal (arrBe v n) = n := by
  unfold arrBe arrBound at *
  split at h
  · rename_i hv
    rw [if_pos hv]
    exact beVal_u32be h
  · rename_i hv
    rw [if_neg hv]
    exact beVal_u16be h

theorem unpackU16_read (n : Nat) (rest : ByteStream) (hn : n < 2 ^ 16) :
    unpackU16 (fread 2 (u16be n ++ rest)).1 = .ok n
      ∧ (fread 2 (u16be n ++ rest)).2 = rest := by
  rw [show (2 : Nat) = (u16be n).length from rfl, fread_exact rfl]
  simp [unpackU16, beVal_u16be hn, length_u16be]

theorem unpackU32_read (n : Nat) (rest : ByteStream) (hn : n < 2 ^ 32) :
    unpackU32 (fread 4 (u32be n ++ rest)).1 = .ok n
      ∧ (fread 4 (u32be n ++ rest)).2 = rest := by
  rw [show (4 : Nat) = (u32be n).length from rfl, fread_exact rfl]
  simp [unpackU32, beVal_u32be hn, length_u32be]

theorem unpackArr_read (v n : Nat) (rest : ByteStream) (hn : n < arrBound v) :
    unpackArr v (fread (arraySize v) (arrBe v n ++ rest)).1 = .ok n
      ∧ (fread (arraySize v) (arrBe v n ++ rest)).2 = rest := by
  rw [show arraySize v = (arrBe v n).length from (length_arrBe v n).symm, fread_exact rfl]
  simp [unpackArr, length_arrBe, beVal_arrBe hn]

/-- `_read_array` on a stream that starts with an exactly-sized
length-prefixed payload consumes exactly that array. -/
theorem readArray_exact {v : Nat} {payload rest : ByteStream}
    (h : payload.length < arrBound v) :
    readArray v (arrBe v payload.length ++ payload ++ rest) = .ok (payload, rest) := by
  unfold readArray
  rw [List.append_assoc]
  obtain ⟨h1, h2⟩ := unpackArr_read v payload.length (payload ++ rest) h
  rw [h1]
  simp only [h2]
  rw [fread_exact rfl]

/-- The component loop on a stream that starts with exactly-sized
arrays consumes exactly those components. -/
theorem readComponents_exact {v : Nat} : ∀ {comps : List ByteStream} {rest : ByteStream},
    (∀ c ∈ comps, c.length < arrBound v) →
    readComponents v comps.length (compsEnc v comps ++ rest) = .ok (comps, rest) := by
  intro comps
  induction comps with
  | nil => intro rest _; rfl
  | cons c cs ih =>
    intro rest hb
    have hc : readArray v ((arrBe v c.length ++ c) ++ (compsEnc v cs ++ rest))
        = .ok (c, compsEnc v cs ++ rest) := by
      have := @readArray_exact v c (compsEnc v cs ++ rest) (hb c (by simp))
      simpa using this
    have hr : readComponents v cs.length (compsEnc v cs ++ rest) = .ok (cs, rest) :=
      ih (fun x hx => hb x (by simp [hx]))
    calc readComponents v (c :: cs).length (compsEnc v (c :: cs) ++ rest)
        = readComponents v (cs.length + 1)
            ((arrBe v c.length ++ c) ++ (compsEnc v cs ++ rest)) := by
          simp [compsEnc]
      _ = .ok (c :: cs, rest) := by
          unfold readComponents
          rw [hc]
          simp only []
          rw [hr]

/-- Principal layout, version 0x0504: u32 `name_type` first, then a
4-byte component count, realm array and component arrays (all with
4-byte length fields); nothing is read after the components. -/
theorem readPrincipal_layout_0504 (nt : Nat) (realm : ByteStream) (comps : List ByteStream)
    (rest : ByteStream) (hnt : nt < 2 ^ 32) (hcount : comps.length < 2 ^ 32)
    (hrealm : realm.length < 2 ^ 32) (hcomps : ∀ c ∈ comps, c.length < 2 ^ 32) :
    readPrincipal 0x0504 (u32be nt ++ u32be comps.length ++ u32be realm.length ++ realm
      ++ compsEnc 0x0504 comps ++ rest)
    = .ok ({ name_type := some nt, value := pyJoin 47 comps ++ 64 :: realm }, rest) := by
  have harr : ∀ n : Nat, u32be n = arrBe 0x0504 n := fun n => rfl
  have hbd : arrBound 0x0504 = 2 ^ 32 := rfl
  have hhead : readPrincipalHead 0x0504 (u32be nt ++ u32be comps.length
      ++ u32be realm.length ++ realm ++ compsEnc 0x0504 comps ++ rest)
      = .ok ((some nt, comps.length),
             u32be realm.length ++ realm ++ compsEnc 0x0504 comps ++ rest) := by
    unfold readPrincipalHead
    rw [if_pos rfl]
    rw [show u32be nt ++ u32be comps.length ++ u32be realm.length ++ realm
        ++ compsEnc 0x0504 comps ++ rest
        = u32be nt ++ (u32be comps.length
            ++ (u32be realm.length ++ realm ++ compsEnc 0x0504 comps ++ rest)) by simp]
    obtain ⟨h1, h2⟩ := unpackU32_read nt (u32be comps.length
      ++ (u32be realm.length ++ realm ++ compsEnc 0x0504 comps ++ rest)) hnt
    rw [h1]
    simp only [h2]
    rw [harr comps.length]
    obtain ⟨h3, h4⟩ := unpackArr_read 0x0504 comps.length
      (u32be realm.length ++ realm ++ compsEnc 0x0504 comps ++ rest) (hbd ▸ hcount)
    rw [h3]
    simp only [h4]
  unfold readPrincipal
  rw [hhead]
  simp only []
  have hrealmr : readArray 0x0504 (u32be realm.length ++ realm
      ++ compsEnc 0x0504 comps ++ rest) = .ok (realm, compsEnc 0x0504 comps ++ rest) := by
    have := @readArray_exact 0x0504 realm (compsEnc 0x0504 comps ++ rest) (hbd ▸ hrealm)
    rw [← harr realm.length] at this
    rw [show u32be realm.length ++ realm ++ compsEnc 0x0504 comps ++ rest
        = u32be realm.length ++ realm ++ (compsEnc 0x0504 comps ++ rest) by simp]
    exact this
  rw [hrealmr]
  simp only []
  rw [readComponents_exact (fun c hc => hbd ▸ hcomps c hc)]
  simp only []
  rw [if_neg (by norm_num)]

/-- Principal layout, version 0x0502: 2-byte component count, realm and
components with 2-byte length fields, then u32 `name_type` after the
component list. -/
theorem readPrincipal_layout_0502 (nt : Nat) (realm : ByteStream) (comps : List ByteStream)
    (rest : ByteStream) (hnt : nt < 2 ^ 32) (hcount : comps.length < 2 ^ 16)
    (hrealm : realm.length < 2 ^ 16) (hcomps : ∀ c ∈ comps, c.length < 2 ^ 16) :
    readPrincipal 0x0502 (u16be comps.length ++ u16be realm.length ++ realm
      ++ compsEnc 0x0502 comps ++ u32be nt ++ rest)
    = .ok ({ name_type := some nt, value := pyJoin 47 comps ++ 64 :: realm }, rest) := by
  have harr : ∀ n : Nat, u16be n = arrBe 0x0502 n := fun n => rfl
  have hbd : arrBound 0x0502 = 2 ^ 16 := rfl
  have hhead : readPrincipalHead 0x0502 (u16be comps.length ++ u16be realm.length ++ realm
      ++ compsEnc 0x0502 comps ++ u32be nt ++ rest)
      = .ok ((none, comps.length),
             u16be realm.length ++ realm ++ compsEnc 0x0502 comps ++ u32be nt ++ rest) := by
    unfold readPrincipalHead
    rw [if_neg (by norm_num)]
    rw [show u16be comps.length ++ u16be realm.length ++ realm ++ compsEnc 0x0502 comps
        ++ u32be nt ++ rest
        = u16be comps.length ++ (u16be realm.length ++ realm ++ compsEnc 0x0502 comps
            ++ u32be nt ++ rest) by simp]
    rw [harr comps.length]
    obtain ⟨h3, h4⟩ := unpackArr_read 0x0502 comps.length
      (u16be realm.length ++ realm ++ compsEnc 0x0502 comps ++ u32be nt ++ rest)
      (hbd ▸ hcount)
    rw [h3]
    simp only [h4]
  unfold readPrincipal
  rw [hhead]
  simp only []
  have hrealmr : readArray 0x0502 (u16be realm.length ++ realm
      ++ compsEnc 0x0502 comps ++ u32be nt ++ rest)
      = .ok (realm, compsEnc 0x0502 comps ++ u32be nt ++ rest) := by
    have := @readArray_exact 0x0502 realm (compsEnc 0x0502 comps ++ u32be nt ++ rest)
      (hbd ▸ hrealm)
    rw [← harr realm.length] at this
    rw [show u16be realm.length ++ realm ++ compsEnc 0x0502 comps ++ u32be nt ++ rest
        = u16be realm.length ++ realm ++ (compsEnc 0x0502 comps ++ u32be nt ++ rest) by simp]
    exact this
  rw [hrealmr]
  simp only []
  rw [show compsEnc 0x0502 comps ++ u32be nt ++ rest
      = compsEnc 0x0502 comps ++ (u32be nt ++ rest) by simp]
  rw [readComponents_exact (fun c hc => hbd ▸ hcomps c hc)]
  simp only [if_true]
  obtain ⟨h5, h6⟩ := unpackU32_read nt rest hnt
  rw [h5]
  simp only [h6]

/-- Principal layout, versions 0x0501 and 0x0503: 2-byte length fields,
and no `name_type` is read at all — the bytes after the component list
are left unconsumed and the decoded dict has no `name_type` key. -/
theorem readPrincipal_layout_legacy (v : Nat) (realm : ByteStream)
    (comps : List ByteStream) (rest : ByteStream) (hv : v = 0x0501 ∨ v = 0x0503)
    (hcount : comps.length < 2 ^ 16) (hrealm : realm.length < 2 ^ 16)
    (hcomps : ∀ c ∈ comps, c.length < 2 ^ 16) :
    readPrincipal v (u16be comps.length ++ u16be realm.length ++ realm
      ++ compsEnc v comps ++ rest)
    = .ok ({ name_type := none, value := pyJoin 47 comps ++ 64 :: realm }, rest) := by
  have hv4 : v ≠ 0x0504 := by rcases hv with h | h <;> omega
  have hv2 : v ≠ 0x0502 := by rcases hv with h | h <;> omega
  have harr : ∀ n : Nat, u16be n = arrBe v n := by
    intro n
    unfold arrBe
    rw [if_neg hv4]
  have hbd : arrBound v = 2 ^ 16 := by
    unfold arrBound
    rw [if_neg hv4]
  have hsz : arraySize v = 2 := by
    unfold arraySize
    rw [if_neg hv4]
  have hhead : readPrincipalHead v (u16be comps.length ++ u16be realm.length ++ realm
      ++ compsEnc v comps ++ rest)
      = .ok ((none, comps.length),
             u16be realm.length ++ realm ++ compsEnc v comps ++ rest) := by
    unfold readPrincipalHead
    rw [if_neg hv4]
    rw [show u16be comps.length ++ u16be realm.length ++ realm ++ compsEnc v comps ++ rest
        = u16be comps.length ++ (u16be realm.length ++ realm ++ compsEnc v comps ++ rest)
        by simp]
    rw [harr comps.length]
    obtain ⟨h3, h4⟩ := unpackArr_read v comps.length
      (u16be realm.length ++ realm ++ compsEnc v comps ++ rest) (hbd ▸ hcount)
    rw [h3]
    simp only [h4]
  unfold readPrincipal
  rw [hhead]
  simp only []
  have hrealmr : readArray v (u16be realm.length ++ realm ++ compsEnc v comps ++ rest)
      = .ok (realm, compsEnc v comps ++ rest) := by
    have := @readArray_exact v realm (compsEnc v comps ++ rest) (hbd ▸ hrealm)
    rw [← harr realm.length] at this
    rw [show u16be realm.length ++ realm ++ compsEnc v comps ++ rest
        = u16be realm.length ++ realm ++ (compsEnc v comps ++ rest) by simp]
    exact this
  rw [hrealmr]
  simp only []
  rw [readComponents_exact (fun c hc => hbd ▸ hcomps c hc)]
  simp only []
  rw [if_neg hv2]

theorem packU16_inv {n : Nat} {b : ByteStream} (h : packU16 n = .ok b) :
    n < 2 ^ 16 ∧ b = u16be n := by
  unfold packU16 at h
  split at h
  · exact ⟨by assumption, (Except.ok.inj h).symm⟩
  · exact Except.noConfusion h

theorem packU32_inv {n : Nat} {b : ByteStream} (h : packU32 n = .ok b) :
    n < 2 ^ 32 ∧ b = u32be n := by
  unfold packU32 at h
  split at h
  · exact ⟨by assumption, (Except.ok.inj h).symm⟩
  · exact Except.noConfusion h

theorem packChar_inv {n : Nat} {b : ByteStream} (h : packChar n = .ok b) :
    n < 2 ^ 8 ∧ b = [n] := by
  unfold packChar at h
  split at h
  · exact ⟨by assumption, (Except.ok.inj h).symm⟩
  · exact Except.noConfusion h

theorem packArr_inv {v n : Nat} {b : ByteStream} (h : packArr v n = .ok b) :
    n < arrBound v ∧ b = arrBe v n := by
  unfold packArr at h
  unfold arrBound arrBe
  split at h
  · rename_i hv
    rw [if_pos hv, if_pos hv]
    exact packU32_inv h
  · rename_i hv
    rw [if_neg hv, if_neg hv]
    exact packU16_inv h

theorem packI32_ofNat_inv {n : Nat} {b : ByteStream} (h : packI32 (n : Int) = .ok b) :
    n < 2 ^ 31 ∧ b = u32be n := by
  unfold packI32 at h
  split at h
  · rename_i hr
    refine ⟨by omega, ?_⟩
    have hb := (Except.ok.inj h).symm
    rw [hb]
    unfold i32be
    have h0 : ((n : Int)).emod (2 ^ 32) = (n : Int) := Int.emod_eq_of_lt (by omega) (by omega)
    rw [h0]
    simp
  · exact Except.noConfusion h

theorem makeArray_inv {v : Nat} {a b : ByteStream} (h : makeArray v a = .ok b) :
    a.length < arrBound v ∧ b = arrBe v a.length ++ a := by
  unfold makeArray at h
  rcases hp : packArr v a.length with er | lb
  · rw [hp] at h
    exact Except.noConfusion h
  · rw [hp] at h
    obtain ⟨h1, h2⟩ := packArr_inv hp
    exact ⟨h1, by rw [← (Except.ok.inj h), h2]⟩

theorem writeComponents_inv {v : Nat} : ∀ {comps : List ByteStream} {b : ByteStream},
    writeComponents v comps = .ok b →
    (∀ c ∈ comps, c.length < arrBound v) ∧ b = compsEnc v comps := by
  intro comps
  induction comps with
  | nil =>
    intro b h
    refine ⟨by simp, ?_⟩
    rw [← Except.ok.inj h]
    rfl
  | cons c cs ih =>
    intro b h
    unfold writeComponents at h
    rcases ha : makeArray v c with er | a
    · rw [ha] at h
      exact Except.noConfusion h
    rw [ha] at h
    simp only [] at h
    rcases hr : writeComponents v cs with er | rest
    · rw [hr] at h
      exact Except.noConfusion h
    rw [hr] at h
    simp only [] at h
    obtain ⟨ha1, ha2⟩ := makeArray_inv ha
    obtain ⟨hr1, hr2⟩ := ih hr
    refine ⟨?_, ?_⟩
    · intro x hx
      rcases List.mem_cons.mp hx with hx | hx
      · rw [hx]
        exact ha1
      · exact hr1 x hx
    · rw [← Except.ok.inj h, ha2, hr2]
      rfl

theorem writeKeyblock_inv {v : Nat} {key : KeyBlock} {b : ByteStream}
    (h : writeKeyblock v key = .ok b) :
    key.type < 2 ^ 16 ∧ key.val.length < arrBound v
      ∧ b = u16be key.type ++ arrBe v key.val.length ++ key.val := by
  unfold writeKeyblock at h
  rcases ht : packU16 key.type with er | t
  · rw [ht] at h
    exact Except.noConfusion h
  rw [ht] at h
  simp only [] at h
  rcases hk : makeArray v key.val with er | kv
  · rw [hk] at h
    exact Except.noConfusion h
  rw [hk] at h
  obtain ⟨h1, h2⟩ := packU16_inv ht
  obtain ⟨h3, h4⟩ := makeArray_inv hk
  refine ⟨h1, h3, ?_⟩
  rw [← Except.ok.inj h, h2, h4]
  simp

theorem getEntrySize_u32be {n : Nat} (tail : ByteStream) (hn : n < 2 ^ 31) :
    getEntrySize (u32be n ++ tail) = .ok ((n : Int), tail) := by
  unfold getEntrySize
  rw [show (4 : Nat) = (u32be n).length from rfl, fread_exact rfl]
  rw [if_neg (by simp [length_u32be])]
  unfold unpackI32
  rw [if_pos (length_u32be n)]
  rw [beVal_u32be (by omega)]
  rw [if_neg (by omega)]

theorem getEntrySize_i32be_neg {z : Int} (tail : ByteStream) (hz1 : -2 ^ 31 ≤ z)
    (hz2 : z < 0) : getEntrySize (i32be z ++ tail) = .ok (z, tail) := by
  have hkey : z.emod (2 ^ 32) = z + 2 ^ 32 := by
    have h1 : (z + 2 ^ 32).emod (2 ^ 32) = z.emod (2 ^ 32) := by
      conv_lhs => rw [show z + 2 ^ 32 = z + 2 ^ 32 * 1 by ring]
      exact Int.add_mul_emod_self_left z (2 ^ 32) 1
    have h2 : (z + 2 ^ 32).emod (2 ^ 32) = z + 2 ^ 32 :=
      Int.emod_eq_of_lt (by omega) (by omega)
    exact (h1.symm).trans h2
  unfold getEntrySize i32be
  rw [hkey]
  rw [show (4 : Nat) = (u32be (z + 2 ^ 32).toNat).length from rfl, fread_exact rfl]
  rw [if_neg (by simp [length_u32be])]
  unfold unpackI32
  rw [if_pos (length_u32be _)]
  rw [beVal_u32be (by omega)]
  rw [if_pos (by omega)]
  have : (((z + 2 ^ 32).toNat : Int)) - 2 ^ 32 = z := by omega
  rw [this]

theorem beVal_singleton (a : Nat) : beVal [a] = a := by
  simp [beVal, List.foldl]

theorem readTime_read (n : Nat) (rest : ByteStream) (hn : n < 2 ^ 32) :
    readTime (u32be n ++ rest) = .ok (n, rest) := by
  unfold readTime
  obtain ⟨h1, h2⟩ := unpackU32_read n rest hn
  rw [h1]
  simp only [h2]

theorem readVno8_read (m : Nat) (rest : ByteStream) :
    readVno8 (m :: rest) = .ok (m, rest) := by
  unfold readVno8
  rw [show m :: rest = [m] ++ rest from rfl]
  rw [show (1 : Nat) = ([m] : ByteStream).length from rfl, fread_exact rfl]
  simp [unpackU8, beVal_singleton]

/-- Key-block layout for versions not above 0x0502: u16 type, u16 key
length, key bytes; no etype field. -/
theorem readKeyblock_layout_le {v : Nat} (t : Nat) (val rest : ByteStream)
    (hv : ¬ 0x0502 < v) (ht : t < 2 ^ 16) (hl : val.length < 2 ^ 16) :
    readKeyblock v (u16be t ++ u16be val.length ++ val ++ rest)
      = .ok ({ type := t, etype := none, val := val }, rest) := by
  unfold readKeyblock
  rw [show u16be t ++ u16be val.length ++ val ++ rest
      = u16be t ++ (u16be val.length ++ val ++ rest) by simp]
  obtain ⟨h1, h2⟩ := unpackU16_read t (u16be val.length ++ val ++ rest) ht
  rw [h1]
  simp only [h2, if_neg hv]
  rw [show u16be val.length ++ val ++ rest = u16be val.length ++ (val ++ rest) by simp]
  obtain ⟨h3, h4⟩ := unpackU16_read val.length (val ++ rest) hl
  rw [h3]
  simp only [h4]
  rw [fread_exact rfl]

/-- Key-block layout for versions above 0x0502: u16 type, a raw 2-byte
etype field, u16 key length, key bytes. -/
theorem readKeyblock_layout_gt {v : Nat} (t : Nat) (e2 val rest : ByteStream)
    (hv : 0x0502 < v) (he : e2.length = 2) (ht : t < 2 ^ 16) (hl : val.length < 2 ^ 16) :
    readKeyblock v (u16be t ++ e2 ++ u16be val.length ++ val ++ rest)
      = .ok ({ type := t, etype := some e2, val := val }, rest) := by
  unfold readKeyblock
  rw [show u16be t ++ e2 ++ u16be val.length ++ val ++ rest
      = u16be t ++ (e2 ++ (u16be val.length ++ val ++ rest)) by simp]
  obtain ⟨h1, h2⟩ := unpackU16_read t (e2 ++ (u16be val.length ++ val ++ rest)) ht
  rw [h1]
  simp only [h2, if_pos hv]
  rw [show fread 2 (e2 ++ (u16be val.length ++ val ++ rest))
      = (e2, u16be val.length ++ val ++ rest) from by rw [← he]; exact fread_exact rfl]
  simp only []
  rw [show u16be val.length ++ val ++ rest = u16be val.length ++ (val ++ rest) by simp]
  obtain ⟨h3, h4⟩ := unpackU16_read val.length (val ++ rest) hl
  rw [h3]
  simp only [h4]
  rw [fread_exact rfl]

theorem pySplit_ne_nil (sep : Nat) : ∀ s : ByteStream, pySplit sep s ≠ [] := by
  intro s
  induction s with
  | nil => simp [pySplit]
  | cons c rest ih =>
    unfold pySplit
    rcases hp : pySplit sep rest with _ | ⟨p, ps⟩
    · exact absurd hp ih
    · simp only []
      split <;> simp

/-- Python's `sep.join(s.split(sep)) == s`. -/
theorem pyJoin_pySplit (sep : Nat) : ∀ s : ByteStream, pyJoin sep (pySplit sep s) = s := by
  intro s
  induction s with
  | nil => rfl
  | cons c rest ih =>
    unfold pySplit
    rcases hp : pySplit sep rest with _ | ⟨p, ps⟩
    · exact absurd hp (pySplit_ne_nil sep rest)
    · rw [hp] at ih
      simp only []
      by_cases hc : c = sep
      · rw [if_pos hc]
        unfold pyJoin
        rcases ps with _ | ⟨p2, ps'⟩
        · unfold pyJoin at ih
          rw [hc, ih]
          rfl
        · rw [show ([] : ByteStream) ++ sep :: pyJoin sep (p :: p2 :: ps')
              = sep :: pyJoin sep (p :: p2 :: ps') from rfl, ih, hc]
      · rw [if_neg hc]
        rcases ps with _ | ⟨p2, ps'⟩
        · unfold pyJoin
          unfold pyJoin at ih
          rw [ih]
        · unfold pyJoin
          unfold pyJoin at ih
          rw [show (c :: p) ++ sep :: pyJoin sep (p2 :: ps')
              = c :: (p ++ sep :: pyJoin sep (p2 :: ps')) by simp, ih]

/-- A two-part split means the string is `first ++ sep ++ second`. -/
theorem pySplit_pair {sep : Nat} {s p r : ByteStream}
    (h : pySplit sep s = [p, r]) : s = p ++ sep :: r := by
  have := pyJoin_pySplit sep s
  rw [h] at this
  rw [← this]
  rfl

theorem foldl_erase_cons {q : KeytabEntry → Bool} :
    ∀ (m : List KeytabEntry) (x : KeytabEntry) (t : List KeytabEntry),
      (∀ y ∈ m, q y = true) → q x = false →
      m.foldl (fun acc k => acc.erase k) (x :: t)
        = x :: m.foldl (fun acc k => acc.erase k) t := by
  intro m
  induction m with
  | nil =>
    intro x t _ _
    rfl
  | cons y m' ih =>
    intro x t hm hx
    have hxy : (x == y) = false := by
      apply beq_eq_false_iff_ne.mpr
      intro hcontra
      rw [hcontra] at hx
      rw [hm y (by simp)] at hx
      exact Bool.noConfusion hx
    simp only [List.foldl]
    rw [List.erase_cons, if_neg (by simp [hxy])]
    exact ih x (t.erase y) (fun z hz => hm z (by simp [hz])) hx

theorem foldl_erase_filter {q : KeytabEntry → Bool} :
    ∀ l : List KeytabEntry,
      (l.filter q).foldl (fun acc k => acc.erase k) l
        = l.filter (fun k => !q k) := by
  intro l
  induction l with
  | nil => rfl
  | cons x t ih =>
    by_cases hx : q x
    · rw [List.filter_cons_of_pos hx]
      simp only [List.foldl]
      rw [List.erase_cons_head]
      rw [ih]
      rw [List.filter_cons_of_neg (by simp [hx])]
    · rw [List.filter_cons_of_neg (by simp [hx])]
      rw [foldl_erase_cons (t.filter q) x t
        (fun y hy => (List.mem_filter.mp hy).2) (by simp [hx])]
      rw [ih]
      rw [List.filter_cons_of_pos (by simp [hx])]

/-- `Keytab.filter` removes exactly the non-matching entries and keeps
the matching ones in their original order. -/
theorem keytabFilter_eq (p : KeytabEntry → Bool) (l : List KeytabEntry) :
    keytabFilter p l = l.filter p := by
  unfold keytabFilter
  simp only []
  have hcongr : l.filter (fun k => !((l.filter p).contains k))
      = l.filter (fun k => !p k) := by
    apply List.filter_congr
    intro k hk
    have hck : (l.filter p).contains k = p k := by
      by_cases hp : p k
      · simp [List.elem_iff, List.mem_filter, hk, hp]
      · simp [List.elem_iff, List.mem_filter, hp]
    rw [hck]
  rw [hcongr, foldl_erase_filter l]
  apply List.filter_congr
  intro k _
  simp

theorem loadEntry_eof_of_short {v : Nat} {s : ByteStream} (h : s.length < 4) :
    loadEntry v s = .error .eofError := by
  unfold loadEntry
  rw [getSizeSkippingHoles_eof h]

theorem loadEntries_of_chain {v : Nat} {s : ByteStream} {es : List KeytabEntry}
    {r : ByteStream} (h : DecodeChain v s es r) :
    loadEntry v r = .error .eofError → loadEntries v s = .ok es := by
  induction h with
  | nil s =>
    intro hr
    exact loadEntries_nil hr
  | cons hstep _ ih =>
    intro hr
    exact loadEntries_cons hstep (ih hr)

theorem keytabLoad_eq {s : ByteStream} {v : Nat} {es : List KeytabEntry}
    (hv : unpackU16 (fread 2 s).1 = .ok v) (he : loadEntries v (fread 2 s).2 = .ok es) :
    keytabLoad s = .ok (v, es) := by
  unfold keytabLoad
  rw [hv]
  simp only []
  rw [he]

theorem keytabLoad_err {s : ByteStream} {v : Nat} {er : PyErr}
    (hv : unpackU16 (fread 2 s).1 = .ok v)
    (he : loadEntries v (fread 2 s).2 = .error er) : keytabLoad s = .error er := by
  unfold keytabLoad
  rw [hv]
  simp only []
  rw [he]

theorem readVno_trailing {size consumed : Int} {x : Nat} {rest : ByteStream}
    (hx : x < 2 ^ 32) (hrem : size - consumed = 4) :
    readVno size consumed (u32be x ++ rest) = .ok (some x, rest) := by
  unfold readVno
  simp only []
  rw [if_pos (by omega)]
  obtain ⟨h1, h2⟩ := unpackU32_read x rest hx
  rw [h1]
  simp only [h2]
  rw [if_neg (by omega)]

theorem readVno_zero {size consumed : Int} {rest : ByteStream}
    (hrem : size - consumed = 0) :
    readVno size consumed rest = .ok (none, rest) := by
  unfold readVno
  simp only []
  rw [if_neg (by omega), if_neg (by omega)]

/-- C1 (counterexample): in a version-0x0503 file, `_read_principal`
does NOT read a u32 `name_type` after the component list, contrary to
the claim that every supported non-0x0504 version does: with one
component `"a"`, realm `"r"` and four further bytes on the stream, the
decoded dict has no name_type and the four bytes are left unconsumed. -/
theorem c1_counterexample :
    readPrincipal 0x0503 [0, 1, 0, 1, 114, 0, 1, 97, 0, 0, 0, 7]
      = .ok ({ name_type := none, value := [97, 64, 114] }, [0, 0, 0, 7]) := rfl

/-- C1 (amended): version 0x0504 uses 4-byte array-length fields and
reads the u32 `name_type` before the component count; version 0x0502
uses 2-byte length fields and reads the u32 `name_type` after the
component list; versions 0x0501 and 0x0503 use 2-byte length fields and
read no `name_type` at all. -/
theorem c1_version_gating :
    (∀ (nt : Nat) (realm : ByteStream) (comps : List ByteStream) (rest : ByteStream),
      nt < 2 ^ 32 → comps.length < 2 ^ 32 → realm.length < 2 ^ 32 →
      (∀ c ∈ comps, c.length < 2 ^ 32) →
      readPrincipal 0x0504 (u32be nt ++ u32be comps.length ++ u32be realm.length ++ realm
        ++ compsEnc 0x0504 comps ++ rest)
      = .ok ({ name_type := some nt, value := pyJoin 47 comps ++ 64 :: realm }, rest))
    ∧ (∀ (nt : Nat) (realm : ByteStream) (comps : List ByteStream) (rest : ByteStream),
      nt < 2 ^ 32 → comps.length < 2 ^ 16 → realm.length < 2 ^ 16 →
      (∀ c ∈ comps, c.length < 2 ^ 16) →
      readPrincipal 0x0502 (u16be comps.length ++ u16be realm.length ++ realm
        ++ compsEnc 0x0502 comps ++ u32be nt ++ rest)
      = .ok ({ name_type := some nt, value := pyJoin 47 comps ++ 64 :: realm }, rest))
    ∧ (∀ (v : Nat) (realm : ByteStream) (comps : List ByteStream) (rest : ByteStream),
      v = 0x0501 ∨ v = 0x0503 → comps.length < 2 ^ 16 → realm.length < 2 ^ 16 →
      (∀ c ∈ comps, c.length < 2 ^ 16) →
      readPrincipal v (u16be comps.length ++ u16be realm.length ++ realm
        ++ compsEnc v comps ++ rest)
      = .ok ({ name_type := none, value := pyJoin 47 comps ++ 64 :: realm }, rest)) :=
  ⟨fun nt realm comps rest h1 h2 h3 h4 =>
      readPrincipal_layout_0504 nt realm comps rest h1 h2 h3 h4,
   fun nt realm comps rest h1 h2 h3 h4 =>
      readPrincipal_layout_0502 nt realm comps rest h1 h2 h3 h4,
   fun v realm comps rest hv h2 h3 h4 =>
      readPrincipal_layout_legacy v realm comps rest hv h2 h3 h4⟩

/-- C1 (witness): the three layout statements at concrete inputs. -/
theorem c1_version_gating_witness :
    readPrincipal 0x0504 (u32be 7 ++ u32be 1 ++ u32be 1 ++ [114]
        ++ compsEnc 0x0504 [[97]] ++ [9, 9])
      = .ok ({ name_type := some 7, value := [97, 64, 114] }, [9, 9])
    ∧ readPrincipal 0x0502 (u16be 1 ++ u16be 1 ++ [114]
        ++ compsEnc 0x0502 [[97]] ++ u32be 7 ++ [9, 9])
      = .ok ({ name_type := some 7, value := [97, 64, 114] }, [9, 9])
    ∧ readPrincipal 0x0503 (u16be 1 ++ u16be 1 ++ [114]
        ++ compsEnc 0x0503 [[97]] ++ [9, 9])
      = .ok ({ name_type := none, value := [97, 64, 114] }, [9, 9]) := by
  refine ⟨?_, ?_, ?_⟩
  · exact c1_version_gating.1 7 [114] [[97]] [9, 9] (by norm_num) (by norm_num)
      (by norm_num) (by decide)
  · exact c1_version_gating.2.1 7 [114] [[97]] [9, 9] (by norm_num) (by norm_num)
      (by norm_num) (by decide)
  · exact c1_version_gating.2.2 0x0503 [114] [[97]] [9, 9] (Or.inr rfl) (by norm_num)
      (by norm_num) (by decide)

/-- C4 (counterexample): a length field declaring 5 bytes with only 2
remaining does not raise `CorruptFormat`: `_read_array` returns the
2-byte payload successfully. -/
theorem c4_counterexample :
    readArray 0x0502 [0, 5, 1, 2] = .ok ([1, 2], []) := rfl

/-- C4 (amended): when the length field declares more payload bytes
than remain in the stream, `_read_array` raises no error and returns
the remaining bytes — a payload shorter than the declared length. -/
theorem c4_short_payload (v L : Nat) (lenb payload : ByteStream)
    (hL : unpackArr v lenb = .ok L) (hshort : payload.length < L) :
    readArray v (lenb ++ payload) = .ok (payload, []) := by
  have hlen : lenb.length = arraySize v := by
    unfold unpackArr at hL
    by_cases hh : lenb.length = arraySize v
    · exact hh
    · rw [if_neg hh] at hL
      exact Except.noConfusion hL
  unfold readArray
  rw [show arraySize v = lenb.length from hlen.symm, fread_exact rfl, hL]
  simp only []
  unfold fread
  rw [List.take_of_length_le (le_of_lt hshort), List.drop_eq_nil_of_le (le_of_lt hshort)]

/-- C4 (witness): the amended statement at a concrete input. -/
theorem c4_short_payload_witness :
    readArray 0x0502 ([0, 7] ++ [3, 4, 5]) = .ok ([3, 4, 5], []) :=
  c4_short_payload 0x0502 7 [0, 7] [3, 4, 5] rfl (by norm_num)

/-- C5: a negative entry size `-N` makes `_load_entry` skip exactly `N`
bytes past the size field without producing an entry and continue with
the next size field; consecutive negative sizes repeat this because the
skip loop recurses through `getSizeSkippingHoles`. -/
theorem c5_hole_skipping (v N : Nat) (rest : ByteStream) (h1 : 1 ≤ N)
    (h2 : N ≤ 2 ^ 31) :
    loadEntry v (i32be (-(N : Int)) ++ rest) = loadEntry v (rest.drop N) := by
  have hge : getEntrySize (i32be (-(N : Int)) ++ rest) = .ok (-(N : Int), rest) :=
    getEntrySize_i32be_neg rest (by omega) (by omega)
  have hstep := getSizeSkippingHoles_hole hge (by omega)
  have htn : (-(-(N : Int))).toNat = N := by omega
  rw [htn] at hstep
  unfold loadEntry
  rw [hstep]

/-- C5 (witness): skipping a 2-byte hole at a concrete input. -/
theorem c5_hole_skipping_witness :
    loadEntry 0x0502 (i32be (-2) ++ [9, 9, 0, 0]) = loadEntry 0x0502 [0, 0] := by
  have := c5_hole_skipping 0x0502 2 [9, 9, 0, 0] (by norm_num) (by norm_num)
  simpa using this

/-- C6: `is_tgt_expired` returns the comparison `endtime ≤ now + secs`
for the first entry whose server principal's primary component is
`"krbtgt"`, and `None` (a result distinct from `False`) when no entry
has such a server principal. -/
theorem c6_tgt_expiry (entries : List CredEntry) (now secs : Int) :
    isTgtExpired entries now secs
      = (entries.find? (fun e => primaryComponent e.server.value == krbtgt)).map
          (fun e => decide ((e.times.endtime : Int) ≤ now + secs)) := by
  induction entries with
  | nil => rfl
  | cons e rest ih =>
    unfold isTgtExpired
    by_cases hp : primaryComponent e.server.value = krbtgt
    · rw [if_pos hp, List.find?_cons_of_pos _ (by simp [hp])]
      by_cases he : (e.times.endtime : Int) ≤ now + secs
      · rw [if_pos he]
        simp [he]
      · rw [if_neg he]
        simp [he]
    · rw [if_neg hp, List.find?_cons_of_neg _ (by simp [hp])]
      exact ih

/-- C7: filtering keeps exactly the entries whose principal value
matches the pattern, in their original order; in particular, with
principals `["host/a@R", "host/b@R", "user@R"]` and a predicate
matching `"host/.*"` (a prefix test for `"host/"`), exactly the first
two remain, in order. -/
theorem c7_filter :
    (∀ (p : KeytabEntry → Bool) (l : List KeytabEntry), keytabFilter p l = l.filter p)
    ∧ keytabFilter (fun e => e.principal.value.take 5 == [104, 111, 115, 116, 47])
        [{ principal := { name_type := some 1, value := [104, 111, 115, 116, 47, 97, 64, 82] },
           timestamp := 5, vno8 := 9,
           key := { type := 1, etype := none, val := [55] }, vno := some 3 },
         { principal := { name_type := some 1, value := [104, 111, 115, 116, 47, 98, 64, 82] },
           timestamp := 5, vno8 := 9,
           key := { type := 1, etype := none, val := [55] }, vno := some 3 },
         { principal := { name_type := some 1, value := [117, 115, 101, 114, 64, 82] },
           timestamp := 5, vno8 := 9,
           key := { type := 1, etype := none, val := [55] }, vno := some 3 }]
      = [{ principal := { name_type := some 1, value := [104, 111, 115, 116, 47, 97, 64, 82] },
           timestamp := 5, vno8 := 9,
           key := { type := 1, etype := none, val := [55] }, vno := some 3 },
         { principal := { name_type := some 1, value := [104, 111, 115, 116, 47, 98, 64, 82] },
           timestamp := 5, vno8 := 9,
           key := { type := 1, etype := none, val := [55] }, vno := some 3 }] := by
  refine ⟨keytabFilter_eq, ?_⟩
  rfl

theorem packArr_eq {v n : Nat} (h : n < arrBound v) : packArr v n = .ok (arrBe v n) := by
  unfold arrBound at h
  unfold packArr arrBe
  by_cases hv : v = 0x0504
  · rw [if_pos hv] at h
    rw [if_pos hv, if_pos hv]
    unfold packU32
    rw [if_pos h]
  · rw [if_neg hv] at h
    rw [if_neg hv, if_neg hv]
    unfold packU16
    rw [if_pos h]

theorem makeArray_eq {v : Nat} {a : ByteStream} (h : a.length < arrBound v) :
    makeArray v a = .ok (arrBe v a.length ++ a) := by
  unfold makeArray
  rw [packArr_eq h]

theorem writeKeyblock_eq {v : Nat} {kb : KeyBlock} (ht : kb.type < 2 ^ 16)
    (hl : kb.val.length < arrBound v) :
    writeKeyblock v kb = .ok (u16be kb.type ++ (arrBe v kb.val.length ++ kb.val)) := by
  unfold writeKeyblock
  rw [show packU16 kb.type = .ok (u16be kb.type) from by unfold packU16; rw [if_pos ht]]
  simp only []
  rw [makeArray_eq hl]

/-- C8 (counterexample): for a version-0x0504 container the key-block
encoder writes the key length with the 4-byte array width, so its
output is not the decoder's layout minus the etype field (u16 type, u16
length, key bytes). -/
theorem c8_counterexample :
    writeKeyblock 0x0504 { type := 1, etype := none, val := [7] }
      = .ok [0, 1, 0, 0, 0, 1, 7]
    ∧ [0, 1, 0, 0, 0, 1, 7] ≠ u16be 1 ++ u16be 1 ++ [7] := ⟨rfl, by decide⟩

/-- C8 (amended): key-block decode reads a u16 type, a raw 2-byte etype
field exactly when the container version exceeds 0x0502, then a u16 key
length and that many key bytes; key-block encode writes the u16 type
and the length-prefixed key material with no etype, using the 2-byte
length width for every version except 0x0504, which uses a 4-byte
length width — so encode mirrors decode minus the etype only for
versions other than 0x0504. -/
theorem c8_keyblock_layout :
    (∀ (v t : Nat) (val rest : ByteStream), ¬ 0x0502 < v → t < 2 ^ 16 →
        val.length < 2 ^ 16 →
        readKeyblock v (u16be t ++ u16be val.length ++ val ++ rest)
          = .ok ({ type := t, etype := none, val := val }, rest))
    ∧ (∀ (v t : Nat) (e2 val rest : ByteStream), 0x0502 < v → e2.length = 2 →
        t < 2 ^ 16 → val.length < 2 ^ 16 →
        readKeyblock v (u16be t ++ e2 ++ u16be val.length ++ val ++ rest)
          = .ok ({ type := t, etype := some e2, val := val }, rest))
    ∧ (∀ (v : Nat) (kb : KeyBlock), v ≠ 0x0504 → kb.type < 2 ^ 16 →
        kb.val.length < 2 ^ 16 →
        writeKeyblock v kb = .ok (u16be kb.type ++ u16be kb.val.length ++ kb.val))
    ∧ (∀ kb : KeyBlock, kb.type < 2 ^ 16 → kb.val.length < 2 ^ 32 →
        writeKeyblock 0x0504 kb = .ok (u16be kb.type ++ u32be kb.val.length ++ kb.val)) := by
  refine ⟨?_, ?_, ?_, ?_⟩
  · intro v t val rest hv ht hl
    exact readKeyblock_layout_le t val rest hv ht hl
  · intro v t e2 val rest hv he ht hl
    exact readKeyblock_layout_gt t e2 val rest hv he ht hl
  · intro v kb hv ht hl
    have hb : kb.val.length < arrBound v := by
      unfold arrBound
      rw [if_neg hv]
      exact hl
    have := writeKeyblock_eq ht hb
    rw [show arrBe v kb.val.length = u16be kb.val.length from by
      unfold arrBe; rw [if_neg hv]] at this
    rw [this]
    simp
  · intro kb ht hl
    have hb : kb.val.length < arrBound 0x0504 := hl
    have := writeKeyblock_eq ht hb
    rw [show arrBe 0x0504 kb.val.length = u32be kb.val.length from rfl] at this
    rw [this]
    simp

/-- C8 (witness): the four layout statements at concrete inputs. -/
theorem c8_keyblock_layout_witness :
    readKeyblock 0x0502 (u16be 3 ++ u16be 1 ++ [55] ++ [8, 8])
      = .ok ({ type := 3, etype := none, val := [55] }, [8, 8])
    ∧ readKeyblock 0x0503 (u16be 3 ++ [0, 2] ++ u16be 1 ++ [55] ++ [8, 8])
      = .ok ({ type := 3, etype := some [0, 2], val := [55] }, [8, 8])
    ∧ writeKeyblock 0x0502 { type := 3, etype := none, val := [55] }
      = .ok (u16be 3 ++ u16be 1 ++ [55])
    ∧ writeKeyblock 0x0504 { type := 3, etype := none, val := [55] }
      = .ok (u16be 3 ++ u32be 1 ++ [55]) := by
  refine ⟨?_, ?_, ?_, ?_⟩
  · exact c8_keyblock_layout.1 0x0502 3 [55] [8, 8] (by norm_num) (by norm_num) (by norm_num)
  · exact c8_keyblock_layout.2.1 0x0503 3 [0, 2] [55] [8, 8] (by norm_num) (by norm_num)
      (by norm_num) (by norm_num)
  · exact c8_keyblock_layout.2.2.1 0x0502 { type := 3, etype := none, val := [55] }
      (by norm_num) (by norm_num) (by norm_num)
  · exact c8_keyblock_layout.2.2.2 { type := 3, etype := none, val := [55] }
      (by norm_num) (by norm_num)

/-- C9: with a positive declared size and `consumed` bytes used by the
fixed fields (`consumed ≤ size`, enough stream bytes remaining), the
trailing u32 key version is read exactly when at least 4 declared bytes
remain, and in every case the remaining declared bytes are read and
discarded so the stream position ends exactly `size` bytes past the
size field (`s.drop (size - consumed).toNat`). -/
theorem c9_trailing_vno (size consumed : Int) (s : ByteStream)
    (h0 : 0 ≤ consumed) (hc : consumed ≤ size)
    (hs : (size - consumed).toNat ≤ s.length) :
    (4 ≤ size - consumed →
      readVno size consumed s
        = .ok (some (beVal (s.take 4)), s.drop (size - consumed).toNat))
    ∧ (size - consumed < 4 →
      readVno size consumed s = .ok (none, s.drop (size - consumed).toNat)) := by
  constructor
  · intro h4
    unfold readVno
    simp only []
    rw [if_pos h4]
    have hlen : (s.take 4).length = 4 := by
      rw [List.length_take]
      omega
    rw [show unpackU32 (fread 4 s).1 = .ok (beVal (s.take 4)) from by
      unfold unpackU32 fread
      rw [if_pos hlen]]
    simp only []
    by_cases hgt : 0 < size - consumed - 4
    · rw [if_pos hgt]
      unfold fread
      rw [show (List.drop 4 s).drop (size - consumed - 4).toNat
          = s.drop (size - consumed).toNat from by
        rw [List.drop_drop]
        congr 1
        omega]
    · rw [if_neg hgt]
      rw [show (size - consumed).toNat = 4 from by omega]
      rfl
  · intro h4
    unfold readVno
    simp only []
    rw [if_neg (by omega)]
    by_cases hgt : 0 < size - consumed
    · rw [if_pos hgt]
      rfl
    · rw [if_neg hgt]
      rw [show (size - consumed).toNat = 0 from by omega]
      simp

/-- C9 (witness): the two cases at concrete inputs. -/
theorem c9_trailing_vno_witness :
    readVno 10 3 [0, 0, 0, 9, 1, 2, 3] = .ok (some 9, [])
    ∧ readVno 10 8 [1, 2, 3] = .ok (none, [3]) := by
  constructor
  · have := (c9_trailing_vno 10 3 [0, 0, 0, 9, 1, 2, 3] (by norm_num) (by norm_num)
      (by norm_num)).1 (by norm_num)
    simpa [beVal, List.foldl] using this
  · have := (c9_trailing_vno 10 8 [1, 2, 3] (by norm_num) (by norm_num)
      (by norm_num)).2 (by norm_num)
    simpa using this

/-- C10: when the decoded fields consumed more bytes than the declared
size, `_read_vno` raises nothing, reads no trailing key version, skips
nothing and leaves the stream untouched; the over-long entry is
appended and the next size field is read from the position right after
the over-consumed fields — shown concretely on a version-0x0502 stream
whose first entry declares size 3 but whose fields consume 22 bytes,
followed by a well-sized second entry. -/
theorem c10_overlong_entry :
    (∀ (size consumed : Int) (s : ByteStream), size < consumed →
        readVno size consumed s = .ok (none, s))
    ∧ loadEntries 0x0502 [0, 0, 0, 3, 0, 1, 0, 1, 114, 0, 1, 97, 0, 0, 0, 7, 0, 0, 0, 5,
        9, 0, 1, 0, 1, 55, 0, 0, 0, 22, 0, 1, 0, 1, 114, 0, 1, 97, 0, 0, 0, 7, 0, 0,
        0, 5, 9, 0, 1, 0, 1, 55]
      = .ok [{ principal := { name_type := some 7, value := [97, 64, 114] },
               timestamp := 5, vno8 := 9,
               key := { type := 1, etype := none, val := [55] }, vno := none },
             { principal := { name_type := some 7, value := [97, 64, 114] },
               timestamp := 5, vno8 := 9,
               key := { type := 1, etype := none, val := [55] }, vno := none }] := by
  constructor
  · intro size consumed s hlt
    unfold readVno
    simp only []
    rw [if_neg (by omega), if_neg (by omega)]
  · have hA : loadEntry 0x0502 [0, 0, 0, 3, 0, 1, 0, 1, 114, 0, 1, 97, 0, 0, 0, 7,
        0, 0, 0, 5, 9, 0, 1, 0, 1, 55, 0, 0, 0, 22, 0, 1, 0, 1, 114, 0, 1, 97, 0, 0,
        0, 7, 0, 0, 0, 5, 9, 0, 1, 0, 1, 55]
        = .ok ({ principal := { name_type := some 7, value := [97, 64, 114] },
                 timestamp := 5, vno8 := 9,
                 key := { type := 1, etype := none, val := [55] }, vno := none },
               [0, 0, 0, 22, 0, 1, 0, 1, 114, 0, 1, 97, 0, 0, 0, 7, 0, 0, 0, 5, 9,
                0, 1, 0, 1, 55]) := by
      unfold loadEntry
      rw [getSizeSkippingHoles_stop
        (show getEntrySize [0, 0, 0, 3, 0, 1, 0, 1, 114, 0, 1, 97, 0, 0, 0, 7,
            0, 0, 0, 5, 9, 0, 1, 0, 1, 55, 0, 0, 0, 22, 0, 1, 0, 1, 114, 0, 1, 97,
            0, 0, 0, 7, 0, 0, 0, 5, 9, 0, 1, 0, 1, 55]
          = .ok (3, [0, 1, 0, 1, 114, 0, 1, 97, 0, 0, 0, 7, 0, 0, 0, 5, 9, 0, 1,
            0, 1, 55, 0, 0, 0, 22, 0, 1, 0, 1, 114, 0, 1, 97, 0, 0, 0, 7, 0, 0, 0,
            5, 9, 0, 1, 0, 1, 55]) from rfl) (by norm_num)]
      rfl
    have hB : loadEntry 0x0502 [0, 0, 0, 22, 0, 1, 0, 1, 114, 0, 1, 97, 0, 0, 0, 7,
        0, 0, 0, 5, 9, 0, 1, 0, 1, 55]
        = .ok ({ principal := { name_type := some 7, value := [97, 64, 114] },
                 timestamp := 5, vno8 := 9,
                 key := { type := 1, etype := none, val := [55] }, vno := none },
               []) := by
      unfold loadEntry
      rw [getSizeSkippingHoles_stop
        (show getEntrySize [0, 0, 0, 22, 0, 1, 0, 1, 114, 0, 1, 97, 0, 0, 0, 7,
            0, 0, 0, 5, 9, 0, 1, 0, 1, 55]
          = .ok (22, [0, 1, 0, 1, 114, 0, 1, 97, 0, 0, 0, 7, 0, 0, 0, 5, 9, 0, 1,
            0, 1, 55]) from rfl) (by norm_num)]
      rfl
    exact loadEntries_cons hA (loadEntries_cons hB
      (loadEntries_nil (loadEntry_eof_of_short (by norm_num))))

/-- C10 (witness): the general statement at a concrete input. -/
theorem c10_overlong_entry_witness :
    readVno 3 22 [1, 2, 3] = .ok (none, [1, 2, 3]) :=
  c10_overlong_entry.1 3 22 [1, 2, 3] (by norm_num)

/-- C2 (counterexample): a version-0x0502 stream whose entry size field
(10) is followed by a single byte — truncation strictly inside the
entry's component-count field, after the size prefix was read — does
not raise: `load` swallows the `EOFError` and returns a successful
empty container. -/
theorem c2_counterexample :
    keytabLoad [5, 2, 0, 0, 0, 10, 0] = .ok (0x0502, []) := by
  have h2 : loadEntry 0x0502 [0, 0, 0, 10, 0] = .error .eofError := by
    unfold loadEntry
    rw [getSizeSkippingHoles_stop
      (show getEntrySize [0, 0, 0, 10, 0] = .ok (10, [0]) from rfl) (by norm_num)]
    rfl
  exact keytabLoad_eq rfl (loadEntries_nil h2)

/-- C2 (amended): whenever successive entry decodes from a stream
succeed and the remainder ends exactly at a record boundary (fewer than
4 bytes where the next size field would start), `load` returns a
successful container holding exactly the entries decoded so far; the
same holds whenever the next entry decode hits the `EOFError` path
(which — see the counterexample — also happens when the stream ends at
the first read of an entry's principal).  Truncation strictly inside a
later field raises an error when a fixed-width unpack fails, as in the
concrete run below where the realm payload is truncated, but not
universally: short variable-length payload reads are accepted (see C4). -/
theorem c2_truncation :
    (∀ (v : Nat) (s : ByteStream) (es : List KeytabEntry) (r : ByteStream),
        DecodeChain v s es r → r.length < 4 → loadEntries v s = .ok es)
    ∧ (∀ (v : Nat) (s : ByteStream) (es : List KeytabEntry) (r : ByteStream),
        DecodeChain v s es r → loadEntry v r = .error .eofError →
        loadEntries v s = .ok es)
    ∧ keytabLoad [5, 2, 0, 0, 0, 16, 0, 1, 0, 1] = .error .structError := by
  refine ⟨?_, ?_, ?_⟩
  · intro v s es r hc hr
    exact loadEntries_of_chain hc (loadEntry_eof_of_short hr)
  · intro v s es r hc hr
    exact loadEntries_of_chain hc hr
  · have h2 : loadEntry 0x0502 [0, 0, 0, 16, 0, 1, 0, 1] = .error .structError := by
      unfold loadEntry
      rw [getSizeSkippingHoles_stop
        (show getEntrySize [0, 0, 0, 16, 0, 1, 0, 1] = .ok (16, [0, 1, 0, 1]) from rfl)
        (by norm_num)]
      rfl
    exact keytabLoad_err rfl (loadEntries_structError h2)

/-- C2 (witness): a one-entry stream followed by three junk bytes (a
record boundary) decodes to a complete one-entry container. -/
theorem c2_truncation_witness :
    loadEntries 0x0502 [0, 0, 0, 26, 0, 1, 0, 1, 114, 0, 1, 97, 0, 0, 0, 7, 0, 0,
        0, 5, 9, 0, 1, 0, 1, 55, 0, 0, 0, 3, 9, 9, 9]
      = .ok [{ principal := { name_type := some 7, value := [97, 64, 114] },
               timestamp := 5, vno8 := 9,
               key := { type := 1, etype := none, val := [55] }, vno := some 3 }] := by
  have hstep : loadEntry 0x0502 [0, 0, 0, 26, 0, 1, 0, 1, 114, 0, 1, 97, 0, 0, 0, 7,
      0, 0, 0, 5, 9, 0, 1, 0, 1, 55, 0, 0, 0, 3, 9, 9, 9]
      = .ok ({ principal := { name_type := some 7, value := [97, 64, 114] },
               timestamp := 5, vno8 := 9,
               key := { type := 1, etype := none, val := [55] }, vno := some 3 },
             [9, 9, 9]) := by
    unfold loadEntry
    rw [getSizeSkippingHoles_stop
      (show getEntrySize [0, 0, 0, 26, 0, 1, 0, 1, 114, 0, 1, 97, 0, 0, 0, 7, 0, 0,
          0, 5, 9, 0, 1, 0, 1, 55, 0, 0, 0, 3, 9, 9, 9]
        = .ok (26, [0, 1, 0, 1, 114, 0, 1, 97, 0, 0, 0, 7, 0, 0, 0, 5, 9, 0, 1, 0,
          1, 55, 0, 0, 0, 3, 9, 9, 9]) from rfl) (by norm_num)]
    rfl
  exact c2_truncation.1 0x0502 _ _ [9, 9, 9]
    (DecodeChain.cons hstep (DecodeChain.nil _)) (by norm_num)

theorem writeVnoTail_inv {vn : Option Nat} {tlb : ByteStream}
    (htl : (if pyTruthy vn then packU32 (vn.getD 0) else Except.ok []) = .ok tlb) :
    (pyTruthy vn = true ∧ vn.getD 0 < 2 ^ 32 ∧ tlb = u32be (vn.getD 0))
    ∨ (pyTruthy vn = false ∧ tlb = []) := by
  by_cases hvt : pyTruthy vn
  · rw [if_pos hvt] at htl
    obtain ⟨h1, h2⟩ := packU32_inv htl
    exact Or.inl ⟨hvt, h1, h2⟩
  · rw [if_neg hvt] at htl
    exact Or.inr ⟨by simpa using hvt, (Except.ok.inj htl).symm⟩

theorem readVno_final_u32 (dta : ByteStream) (x : Nat) (rest : ByteStream)
    (hx : x < 2 ^ 32) :
    readVno (dta.length : Int)
      (((dta ++ rest).length : Int) - ((u32be x ++ rest).length : Int)) (u32be x ++ rest)
      = .ok (some x, rest) := by
  apply readVno_trailing hx
  simp only [List.length_append, length_u32be]
  push_cast
  omega

theorem readVno_final_nil (dta rest : ByteStream) :
    readVno (dta.length : Int)
      (((dta ++ rest).length : Int) - ((([] : ByteStream) ++ rest).length : Int))
      (([] : ByteStream) ++ rest)
      = .ok (none, rest) := by
  have hz := @readVno_zero (dta.length : Int)
    (((dta ++ rest).length : Int) - ((([] : ByteStream) ++ rest).length : Int))
    (([] : ByteStream) ++ rest)
    (by simp only [List.length_append, List.length_nil, List.nil_append]; push_cast; omega)
  simpa using hz

theorem writePrincipalData_inv {v : Nat} {prn : Principal} {b : ByteStream}
    (h : writePrincipalData v prn = .ok b) :
    ∃ p r n, pySplit 64 prn.value = [p, r] ∧ prn.name_type = some n ∧ n < 2 ^ 32
      ∧ (pySplit 47 p).length < 2 ^ 16 ∧ r.length < arrBound v
      ∧ (∀ c ∈ pySplit 47 p, c.length < arrBound v)
      ∧ b = u16be (pySplit 47 p).length ++ (arrBe v r.length ++ r)
          ++ compsEnc v (pySplit 47 p) ++ u32be n := by
  obtain ⟨nt0, pval⟩ := prn
  unfold writePrincipalData at h
  simp only [] at h
  rcases hsp : pySplit 64 pval with _ | ⟨p, _ | ⟨r, _ | ⟨x, xs⟩⟩⟩
  · rw [hsp] at h
    simp only [] at h
    exact Except.noConfusion h
  · rw [hsp] at h
    simp only [] at h
    exact Except.noConfusion h
  case cons.cons.cons =>
    rw [hsp] at h
    simp only [] at h
    exact Except.noConfusion h
  case cons.cons.nil =>
  rw [hsp] at h
  simp only [] at h
  rcases hcnt : packU16 (pySplit 47 p).length with er | cnt
  case error =>
    rw [hcnt] at h
    simp only [] at h
    exact Except.noConfusion h
  rw [hcnt] at h
  simp only [] at h
  obtain ⟨hCb, hc2⟩ := packU16_inv hcnt
  rcases hra : makeArray v r with er | realmA
  case error =>
    rw [hra] at h
    simp only [] at h
    exact Except.noConfusion h
  rw [hra] at h
  simp only [] at h
  obtain ⟨hrb, hra2⟩ := makeArray_inv hra
  rcases hwc : writeComponents v (pySplit 47 p) with er | compsA
  case error =>
    rw [hwc] at h
    simp only [] at h
    exact Except.noConfusion h
  rw [hwc] at h
  simp only [] at h
  obtain ⟨hcompsb, hwc2⟩ := writeComponents_inv hwc
  rcases nt0 with _ | n
  case none =>
    simp only [] at h
    exact Except.noConfusion h
  simp only [] at h
  rcases hnt : packU32 n with er | ntb
  case error =>
    rw [hnt] at h
    simp only [] at h
    exact Except.noConfusion h
  rw [hnt] at h
  simp only [] at h
  obtain ⟨hnb, hnt2⟩ := packU32_inv hnt
  refine ⟨p, r, n, rfl, rfl, hnb, hCb, hrb, hcompsb, ?_⟩
  rw [← Except.ok.inj h, hc2, hra2, hwc2, hnt2]

theorem writeEntryBody_inv {v : Nat} {e : KeytabEntry} {b : ByteStream}
    (h : writeEntryBody v e = .ok b) :
    ∃ prb tlb, writePrincipalData v e.principal = .ok prb
      ∧ e.timestamp < 2 ^ 32 ∧ e.vno8 < 2 ^ 8
      ∧ e.key.type < 2 ^ 16 ∧ e.key.val.length < arrBound v
      ∧ ((pyTruthy e.vno = true ∧ e.vno.getD 0 < 2 ^ 32 ∧ tlb = u32be (e.vno.getD 0))
          ∨ (pyTruthy e.vno = false ∧ tlb = []))
      ∧ b = prb ++ u32be e.timestamp ++ [e.vno8]
          ++ (u16be e.key.type ++ arrBe v e.key.val.length ++ e.key.val) ++ tlb := by
  unfold writeEntryBody at h
  rcases hpr : writePrincipalData v e.principal with er | prb
  case error =>
    rw [hpr] at h
    simp only [] at h
    exact Except.noConfusion h
  rw [hpr] at h
  simp only [] at h
  rcases hts : packU32 e.timestamp with er | tsb
  case error =>
    rw [hts] at h
    simp only [] at h
    exact Except.noConfusion h
  rw [hts] at h
  simp only [] at h
  obtain ⟨htsbd, hts2⟩ := packU32_inv hts
  rcases hv8 : packChar e.vno8 with er | v8b
  case error =>
    rw [hv8] at h
    simp only [] at h
    exact Except.noConfusion h
  rw [hv8] at h
  simp only [] at h
  obtain ⟨hv8b, hv82⟩ := packChar_inv hv8
  rcases hkb : writeKeyblock v e.key with er | kbb
  case error =>
    rw [hkb] at h
    simp only [] at h
    exact Except.noConfusion h
  rw [hkb] at h
  simp only [] at h
  obtain ⟨hktb, hkvb, hkb2⟩ := writeKeyblock_inv hkb
  rcases htl : (if pyTruthy e.vno then packU32 (e.vno.getD 0) else Except.ok []) with er | tlb
  case error =>
    rw [htl] at h
    simp only [] at h
    exact Except.noConfusion h
  rw [htl] at h
  simp only [] at h
  refine ⟨prb, tlb, rfl, htsbd, hv8b, hktb, hkvb, writeVnoTail_inv htl, ?_⟩
  rw [← Except.ok.inj h, hts2, hv82, hkb2]

theorem writeEntry_ok_inv {v : Nat} {e : KeytabEntry} {bs : ByteStream}
    (h : writeEntry v e = .ok bs) :
    ∃ data, writeEntryBody v e = .ok data ∧ data.length < 2 ^ 31
      ∧ bs = u32be data.length ++ data := by
  unfold writeEntry at h
  rcases hd : writeEntryBody v e with er | data
  case error =>
    rw [hd] at h
    simp only [] at h
    exact Except.noConfusion h
  rw [hd] at h
  simp only [] at h
  rcases hsz : packI32 ((data.length : Nat) : Int) with er | szb
  case error =>
    rw [hsz] at h
    simp only [] at h
    exact Except.noConfusion h
  rw [hsz] at h
  simp only [] at h
  obtain ⟨h1, h2⟩ := packI32_ofNat_inv hsz
  exact ⟨data, rfl, h1, by rw [← Except.ok.inj h, h2]⟩

/-- C3 (counterexample): the encode/decode round trip fails for every
container version other than 0x0502.  For well-formed one-entry files
of versions 0x0503 and 0x0501, decoding succeeds but encoding the
decoded entry raises `KeyError` (the decoded dict has no name_type), so
no bytes are produced at all; for a well-formed 0x0504 file, encoding
succeeds but re-decoding its output fails with `struct.error` (the
entry writer uses a u16 component count and writes name_type after the
components, which a 0x0504 decode mis-parses). -/
theorem c3_counterexample :
    keytabLoad [5, 3, 0, 0, 0, 24, 0, 1, 0, 1, 114, 0, 1, 97, 0, 0, 0, 5, 9, 0, 1,
        0, 2, 0, 1, 55, 0, 0, 0, 3]
      = .ok (0x0503,
          [{ principal := { name_type := none, value := [97, 64, 114] },
             timestamp := 5, vno8 := 9,
             key := { type := 1, etype := some [0, 2], val := [55] }, vno := some 3 }])
    ∧ writeEntry 0x0503
        { principal := { name_type := none, value := [97, 64, 114] },
          timestamp := 5, vno8 := 9,
          key := { type := 1, etype := some [0, 2], val := [55] }, vno := some 3 }
      = .error .keyError
    ∧ keytabLoad [5, 1, 0, 0, 0, 22, 0, 1, 0, 1, 114, 0, 1, 97, 0, 0, 0, 5, 9, 0, 1,
        0, 1, 55, 0, 0, 0, 3]
      = .ok (0x0501,
          [{ principal := { name_type := none, value := [97, 64, 114] },
             timestamp := 5, vno8 := 9,
             key := { type := 1, etype := none, val := [55] }, vno := some 3 }])
    ∧ writeEntry 0x0501
        { principal := { name_type := none, value := [97, 64, 114] },
          timestamp := 5, vno8 := 9,
          key := { type := 1, etype := none, val := [55] }, vno := some 3 }
      = .error .keyError
    ∧ keytabLoad [5, 4, 0, 0, 0, 34, 0, 0, 0, 1, 0, 0, 0, 1, 0, 0, 0, 1, 114, 0, 0,
        0, 1, 97, 0, 0, 0, 5, 9, 0, 1, 0, 2, 0, 1, 55, 0, 0, 0, 3]
      = .ok (0x0504,
          [{ principal := { name_type := some 1, value := [97, 64, 114] },
             timestamp := 5, vno8 := 9,
             key := { type := 1, etype := some [0, 2], val := [55] }, vno := some 3 }])
    ∧ writeEntry 0x0504
        { principal := { name_type := some 1, value := [97, 64, 114] },
          timestamp := 5, vno8 := 9,
          key := { type := 1, etype := some [0, 2], val := [55] }, vno := some 3 }
      = .ok [0, 0, 0, 32, 0, 1, 0, 0, 0, 1, 114, 0, 0, 0, 1, 97, 0, 0, 0, 1, 0, 0,
          0, 5, 9, 0, 1, 0, 0, 0, 1, 55, 0, 0, 0, 3]
    ∧ loadEntries 0x0504 [0, 0, 0, 32, 0, 1, 0, 0, 0, 1, 114, 0, 0, 0, 1, 97, 0, 0,
        0, 1, 0, 0, 0, 5, 9, 0, 1, 0, 0, 0, 1, 55, 0, 0, 0, 3]
      = .error .structError := by
  have hA : loadEntry 0x0503 [0, 0, 0, 24, 0, 1, 0, 1, 114, 0, 1, 97, 0, 0, 0, 5, 9,
      0, 1, 0, 2, 0, 1, 55, 0, 0, 0, 3]
      = .ok ({ principal := { name_type := none, value := [97, 64, 114] },
               timestamp := 5, vno8 := 9,
               key := { type := 1, etype := some [0, 2], val := [55] },
               vno := some 3 },
             []) := by
    unfold loadEntry
    rw [getSizeSkippingHoles_stop
      (show getEntrySize [0, 0, 0, 24, 0, 1, 0, 1, 114, 0, 1, 97, 0, 0, 0, 5, 9, 0,
          1, 0, 2, 0, 1, 55, 0, 0, 0, 3]
        = .ok (24, [0, 1, 0, 1, 114, 0, 1, 97, 0, 0, 0, 5, 9, 0, 1, 0, 2, 0, 1, 55,
          0, 0, 0, 3]) from rfl) (by norm_num)]
    rfl
  have hB : loadEntry 0x0501 [0, 0, 0, 22, 0, 1, 0, 1, 114, 0, 1, 97, 0, 0, 0, 5, 9,
      0, 1, 0, 1, 55, 0, 0, 0, 3]
      = .ok ({ principal := { name_type := none, value := [97, 64, 114] },
               timestamp := 5, vno8 := 9,
               key := { type := 1, etype := none, val := [55] },
               vno := some 3 },
             []) := by
    unfold loadEntry
    rw [getSizeSkippingHoles_stop
      (show getEntrySize [0, 0, 0, 22, 0, 1, 0, 1, 114, 0, 1, 97, 0, 0, 0, 5, 9, 0,
          1, 0, 1, 55, 0, 0, 0, 3]
        = .ok (22, [0, 1, 0, 1, 114, 0, 1, 97, 0, 0, 0, 5, 9, 0, 1, 0, 1, 55, 0, 0,
          0, 3]) from rfl) (by norm_num)]
    rfl
  have hC : loadEntry 0x0504 [0, 0, 0, 34, 0, 0, 0, 1, 0, 0, 0, 1, 0, 0, 0, 1, 114,
      0, 0, 0, 1, 97, 0, 0, 0, 5, 9, 0, 1, 0, 2, 0, 1, 55, 0, 0, 0, 3]
      = .ok ({ principal := { name_type := some 1, value := [97, 64, 114] },
               timestamp := 5, vno8 := 9,
               key := { type := 1, etype := some [0, 2], val := [55] },
               vno := some 3 },
             []) := by
    unfold loadEntry
    rw [getSizeSkippingHoles_stop
      (show getEntrySize [0, 0, 0, 34, 0, 0, 0, 1, 0, 0, 0, 1, 0, 0, 0, 1, 114, 0,
          0, 0, 1, 97, 0, 0, 0, 5, 9, 0, 1, 0, 2, 0, 1, 55, 0, 0, 0, 3]
        = .ok (34, [0, 0, 0, 1, 0, 0, 0, 1, 0, 0, 0, 1, 114, 0, 0, 0, 1, 97, 0, 0,
          0, 5, 9, 0, 1, 0, 2, 0, 1, 55, 0, 0, 0, 3]) from rfl) (by norm_num)]
    rfl
  have hD : loadEntry 0x0504 [0, 0, 0, 32, 0, 1, 0, 0, 0, 1, 114, 0, 0, 0, 1, 97, 0,
      0, 0, 1, 0, 0, 0, 5, 9, 0, 1, 0, 0, 0, 1, 55, 0, 0, 0, 3]
      = .error .structError := by
    unfold loadEntry
    rw [getSizeSkippingHoles_stop
      (show getEntrySize [0, 0, 0, 32, 0, 1, 0, 0, 0, 1, 114, 0, 0, 0, 1, 97, 0, 0,
          0, 1, 0, 0, 0, 5, 9, 0, 1, 0, 0, 0, 1, 55, 0, 0, 0, 3]
        = .ok (32, [0, 1, 0, 0, 0, 1, 114, 0, 0, 0, 1, 97, 0, 0, 0, 1, 0, 0, 0, 5,
          9, 0, 1, 0, 0, 0, 1, 55, 0, 0, 0, 3]) from rfl) (by norm_num)]
    rfl
  refine ⟨?_, rfl, ?_, rfl, ?_, rfl, ?_⟩
  · exact keytabLoad_eq rfl (loadEntries_cons hA
      (loadEntries_nil (loadEntry_eof_of_short (by norm_num))))
  · exact keytabLoad_eq rfl (loadEntries_cons hB
      (loadEntries_nil (loadEntry_eof_of_short (by norm_num))))
  · exact keytabLoad_eq rfl (loadEntries_cons hC
      (loadEntries_nil (loadEntry_eof_of_short (by norm_num))))
  · exact loadEntries_structError hD

/-- C3 (amended): for a version-0x0502 container, any entry on which
the encoder succeeds — in particular every entry decoded from a
well-formed 0x0502 file, whose key has no etype, whose principal has a
name_type and whose principal value contains exactly one `'@'` —
re-decodes from its encoding to an entry equal in every field, except
that an absent or present-but-zero trailing key version decodes as
absent.  The round trip does not hold for versions 0x0501, 0x0503 and
0x0504 (see the counterexample). -/
theorem c3_roundtrip (e : KeytabEntry) (bs rest : ByteStream)
    (hety : e.key.etype = none) (h : writeEntry 0x0502 e = .ok bs) :
    loadEntry 0x0502 (bs ++ rest)
      = .ok ({ e with vno := if pyTruthy e.vno then e.vno else none }, rest) := by
  obtain ⟨⟨nt0, pval⟩, ts, v8, ⟨kt, ket, kv⟩, vn⟩ := e
  simp only [] at hety
  subst hety
  obtain ⟨D, hbody, hD, hbs⟩ := writeEntry_ok_inv h
  obtain ⟨prb, tlb, hpr, htsbd, hv8b, hktb, hkvb, htl', hDdef⟩ := writeEntryBody_inv hbody
  obtain ⟨p, r, n, hsp, hnt0, hnb, hCb, hrb, hcompsb, hprdef⟩ := writePrincipalData_inv hpr
  simp only [] at hsp hnt0 htsbd hv8b hktb hkvb htl' hDdef
  subst hnt0
  subst hbs
  -- decode side
  have hge : getSizeSkippingHoles ((u32be D.length ++ D) ++ rest)
      = .ok ((D.length : Int), D ++ rest) := by
    rw [show (u32be D.length ++ D) ++ rest = u32be D.length ++ (D ++ rest) by simp]
    exact getSizeSkippingHoles_stop (getEntrySize_u32be _ hD) (by omega)
  unfold loadEntry
  rw [hge]
  simp only []
  have hprin : readPrincipal 0x0502 (D ++ rest)
      = .ok ({ name_type := some n, value := pval },
          u32be ts ++ ([v8] ++ ((u16be kt ++ arrBe 0x0502 kv.length ++ kv)
            ++ (tlb ++ rest)))) := by
    have base := readPrincipal_layout_0502 n r (pySplit 47 p)
      (u32be ts ++ ([v8] ++ ((u16be kt ++ arrBe 0x0502 kv.length ++ kv)
        ++ (tlb ++ rest)))) hnb hCb
      (by exact hrb) (by exact hcompsb)
    rw [show D ++ rest
        = u16be (pySplit 47 p).length ++ u16be r.length ++ r
          ++ compsEnc 0x0502 (pySplit 47 p) ++ u32be n
          ++ (u32be ts ++ ([v8] ++ ((u16be kt ++ arrBe 0x0502 kv.length ++ kv)
            ++ (tlb ++ rest)))) by
      rw [hDdef, hprdef]
      rw [show arrBe 0x0502 r.length = u16be r.length from rfl]
      simp]
    rw [base]
    rw [pyJoin_pySplit 47 p, ← pySplit_pair hsp]
  rw [hprin]
  simp only []
  rw [readTime_read ts ([v8] ++ ((u16be kt ++ arrBe 0x0502 kv.length ++ kv)
    ++ (tlb ++ rest))) htsbd]
  simp only []
  rw [show ([v8] : ByteStream) ++ ((u16be kt ++ arrBe 0x0502 kv.length ++ kv)
      ++ (tlb ++ rest))
    = v8 :: ((u16be kt ++ arrBe 0x0502 kv.length ++ kv) ++ (tlb ++ rest)) from rfl]
  rw [readVno8_read v8 ((u16be kt ++ arrBe 0x0502 kv.length ++ kv) ++ (tlb ++ rest))]
  simp only []
  rw [show arrBe 0x0502 kv.length = u16be kv.length from rfl]
  rw [show (u16be kt ++ u16be kv.length ++ kv) ++ (tlb ++ rest)
      = u16be kt ++ u16be kv.length ++ kv ++ (tlb ++ rest) by simp]
  rw [readKeyblock_layout_le kt kv (tlb ++ rest) (by norm_num) hktb
    (by exact hkvb)]
  simp only []
  rcases htl' with ⟨hvt, hxb, htlb⟩ | ⟨hvf, htlb⟩
  · rw [htlb]
    rw [readVno_final_u32 _ _ _ hxb]
    simp only []
    rcases vn with _ | x0
    · simp [pyTruthy] at hvt
    · simp only [hvt, if_true]
      rfl
  · rw [htlb]
    rw [readVno_final_nil]
    simp only []
    rw [show (if pyTruthy vn then vn else none) = none from by rw [if_neg (by simp [hvf])]]

/-- C3 (witness): a concrete 0x0502 entry whose encoding decodes back to
itself, with two junk bytes left over. -/
theorem c3_roundtrip_witness :
    writeEntry 0x0502
        { principal := { name_type := some 7, value := [97, 64, 114] },
          timestamp := 5, vno8 := 9,
          key := { type := 1, etype := none, val := [55] }, vno := some 3 }
      = .ok [0, 0, 0, 26, 0, 1, 0, 1, 114, 0, 1, 97, 0, 0, 0, 7, 0, 0, 0, 5, 9,
          0, 1, 0, 1, 55, 0, 0, 0, 3]
    ∧ loadEntry 0x0502 ([0, 0, 0, 26, 0, 1, 0, 1, 114, 0, 1, 97, 0, 0, 0, 7, 0,
          0, 0, 5, 9, 0, 1, 0, 1, 55, 0, 0, 0, 3] ++ [7, 7])
      = .ok ({ principal := { name_type := some 7, value := [97, 64, 114] },
               timestamp := 5, vno8 := 9,
               key := { type := 1, etype := none, val := [55] }, vno := some 3 },
             [7, 7]) :=
  ⟨rfl, c3_roundtrip
    { principal := { name_type := some 7, value := [97, 64, 114] },
      timestamp := 5, vno8 := 9,
      key := { type := 1, etype := none, val := [55] }, vno := some 3 }
    [0, 0, 0, 26, 0, 1, 0, 1, 114, 0, 1, 97, 0, 0, 0, 7, 0, 0, 0, 5, 9, 0, 1,
      0, 1, 55, 0, 0, 0, 3] [7, 7] rfl rfl⟩

end Krb5Format
